import Mathlib

/-!
Verification development for the `dev_server` repository: a shallow
embedding of its HTTP codec, WebSocket helper, broadcast hub and
connection handler, together with theorems settling the specification
claims.

Rust strings are modelled as `List Char` (`RStr`); byte buffers as
`List Nat` with every byte `< 256`.  UTF-8 encoding / lossy decoding is
modelled on the ASCII fragment (every theorem that crosses the byte
boundary carries an ASCII hypothesis), where it agrees with the Rust
standard library.  Rust panics (out-of-bounds indexing, `todo!`,
`unwrap` failures) are modelled explicitly by the `panicked`
constructor of `RResult`.
-/

set_option maxRecDepth 8192

/-- Rust `String` / `&str`, modelled as a list of characters. -/
abbrev RStr := List Char

/-- Convert a Lean string literal to the model representation. -/
def rstr (s : String) : RStr := s.data

/-- Rust `str::split` with a two-character pattern `[a, b]`: greedy
left-to-right splitting on non-overlapping occurrences. -/
def split2 (a b : Char) : RStr → List RStr
  | [] => [[]]
  | [c] => [[c]]
  | c :: d :: rest =>
    if c = a ∧ d = b then [] :: split2 a b rest
    else
      match split2 a b (d :: rest) with
      | [] => [[c]]
      | h :: t => (c :: h) :: t

/-- Rust `str::split` with a one-character pattern `[a]`. -/
def split1 (a : Char) : RStr → List RStr
  | [] => [[]]
  | c :: rest =>
    if c = a then [] :: split1 a rest
    else
      match split1 a rest with
      | [] => [[c]]
      | h :: t => (c :: h) :: t

/-- Does the string contain the two-character substring `[a, b]`? -/
def contains2 (a b : Char) : RStr → Bool
  | [] => false
  | [_] => false
  | c :: d :: rest => if c = a ∧ d = b then true else contains2 a b (d :: rest)

/-- Rust `str::split("\r\n")`. -/
def splitCRLF (s : RStr) : List RStr := split2 '\r' '\n' s

/-- Rust `str::split(" ")`. -/
def splitSpace (s : RStr) : List RStr := split1 ' ' s

/-- Rust `str::split(": ")`. -/
def splitColonSpace (s : RStr) : List RStr := split2 ':' ' ' s

/-- Does the string contain the substring `": "`?  Used to state
well-formedness of header names and values. -/
def hasColonSpace (s : RStr) : Bool := contains2 ':' ' ' s

/-- Rust `str::to_uppercase`, modelled character-wise on the ASCII
fragment (where it agrees with `char::to_uppercase`). -/
def toUpperStr (s : RStr) : RStr := s.map Char.toUpper

/-- Rust `str::parse::<usize>()`: optional leading `+`, then one or
more decimal digits; overflow past `usize::MAX = 2^64 - 1` is an
error. -/
def parseDigits : List Char → Option Nat → Option Nat
  | [], acc => acc
  | c :: rest, acc =>
    if c.isDigit then
      parseDigits rest (some ((acc.getD 0) * 10 + (c.toNat - 48)))
    else
      none

def parseUsize (s : RStr) : Option Nat :=
  let body := match s with
    | '+' :: rest => rest
    | other => other
  match parseDigits body none with
  | some n => if n < 18446744073709551616 then some n else none
  | none => none

/-- Insertion into a Rust `HashMap<String, String>`, modelled as an
association list: replaces the value when the key is present, appends
otherwise (iteration order of the Rust map is arbitrary; the list
order is one such order). -/
def hmInsert (m : List (RStr × RStr)) (k v : RStr) : List (RStr × RStr) :=
  if m.any (fun p => p.1 = k) then
    m.map (fun p => if p.1 = k then (k, v) else p)
  else
    m ++ [(k, v)]

/-- `HashMap::get`, modelled as first-match lookup (the association
list never holds duplicate keys). -/
def hmGet (m : List (RStr × RStr)) (k : RStr) : Option RStr :=
  (m.find? (fun p => p.1 = k)).map (fun p => p.2)

/-- Result of running a fallible Rust computation: `ok`, a returned
`Err(&'static str)`, or a panic (index out of bounds, `todo!`,
`unwrap` failure). -/
inductive RResult (α : Type) where
  | ok : α → RResult α
  | err : String → RResult α
  | panicked : RResult α
  deriving DecidableEq, Repr

/-! ## HTTP data model (`src/http/common.rs`) -/

/-- `HttpVerb` from `src/http/common.rs`. -/
inductive HttpVerb where
  | GET | HEAD | POST | PUT | DELETE | CONNECT | OPTIONS | TRACE | PATCH
  deriving DecidableEq, Repr

/-- `HttpVerb::from_str`: case-insensitive verb token resolution. -/
def HttpVerb.from_str (data : RStr) : Except String HttpVerb :=
  let u := toUpperStr data
  if u = rstr "GET" then .ok .GET
  else if u = rstr "HEAD" then .ok .HEAD
  else if u = rstr "POST" then .ok .POST
  else if u = rstr "PUT" then .ok .PUT
  else if u = rstr "DELETE" then .ok .DELETE
  else if u = rstr "CONNECT" then .ok .CONNECT
  else if u = rstr "PATCH" then .ok .PATCH
  else if u = rstr "OPTIONS" then .ok .OPTIONS
  else if u = rstr "TRACE" then .ok .TRACE
  else .error "Unknown http verb"

/-- `HttpVerb::get_str`. -/
def HttpVerb.get_str : HttpVerb → RStr
  | .GET => rstr "GET"
  | .HEAD => rstr "HEAD"
  | .POST => rstr "POST"
  | .PUT => rstr "PUT"
  | .DELETE => rstr "DELETE"
  | .CONNECT => rstr "CONNECT"
  | .OPTIONS => rstr "OPTIONS"
  | .TRACE => rstr "TRACE"
  | .PATCH => rstr "PATCH"

/-- `HttpStatus` from `src/http/common.rs`. -/
inductive HttpStatus where
  | SwitchingProtocols | Ok | BadRequest | Unauthorized | NotFound
  | MethodNotAllowed | InternalError
  deriving DecidableEq, Repr

/-- `HttpStatus::from_code`. -/
def HttpStatus.from_code (code : Int) : Except String HttpStatus :=
  if code = 101 then .ok .SwitchingProtocols
  else if code = 200 then .ok .Ok
  else if code = 400 then .ok .BadRequest
  else if code = 401 then .ok .Unauthorized
  else if code = 404 then .ok .NotFound
  else if code = 405 then .ok .MethodNotAllowed
  else if code = 500 then .ok .InternalError
  else .error "Unknown response type code"

/-- `HttpStatus::get_code`. -/
def HttpStatus.get_code : HttpStatus → Int
  | .SwitchingProtocols => 101
  | .Ok => 200
  | .BadRequest => 400
  | .Unauthorized => 401
  | .NotFound => 404
  | .MethodNotAllowed => 405
  | .InternalError => 500

/-- `HttpRequestHeader` from `src/http/common.rs`. -/
structure HttpRequestHeader where
  route : RStr
  verb : HttpVerb
  content_length : Nat
  headers : List (RStr × RStr)
  http_version : RStr
  deriving DecidableEq, Repr

/-- `HttpRequest` from `src/http/common.rs`; the body is a byte
vector. -/
structure HttpRequest where
  header : HttpRequestHeader
  body : Option (List Nat)
  deriving DecidableEq, Repr

/-- UTF-8 encoding of a string (`str::as_bytes`), modelled on the
ASCII fragment: each character below `U+0080` is one byte. -/
def strBytes (s : RStr) : List Nat := s.map Char.toNat

/-- `String::from_utf8_lossy`, modelled on the ASCII fragment: each
byte below `0x80` decodes to the corresponding character. -/
def bytesStr (bs : List Nat) : RStr := bs.map Char.ofNat

/-! ## Request header parsing and serialization -/

/-- Body of the header loop in `HttpRequestHeader::parse_from_string`
(`for i in 1..split_header.len()`): split the line on `": "`, and when
it has more than one part insert the uppercased key; a
`CONTENT-LENGTH` line additionally updates the numeric content length
when its value parses. -/
def headerFoldStep (acc : Nat × List (RStr × RStr)) (item : RStr) :
    Nat × List (RStr × RStr) :=
  let split_item := splitColonSpace item
  if split_item.length > 1 then
    let k := toUpperStr (split_item.headD [])
    let v := split_item.getD 1 []
    let content_length :=
      if k = rstr "CONTENT-LENGTH" then
        match parseUsize v with
        | some i => i
        | none => acc.1
      else acc.1
    (content_length, hmInsert acc.2 k v)
  else acc

/-- `HttpRequestHeader::parse_from_string`.  Indexing
`split_status_line[1]` / `[2]` panics in Rust when the status line has
fewer than three space-separated tokens; the verb is resolved (and its
error returned) before that indexing happens. -/
def HttpRequestHeader.parse_from_string (data : RStr) : RResult HttpRequestHeader :=
  let split_header := splitCRLF data
  let split_status_line := splitSpace (split_header.headD [])
  match HttpVerb.from_str (split_status_line.headD []) with
  | .error e => .err e
  | .ok verb =>
    match split_status_line.get? 1, split_status_line.get? 2 with
    | some route, some http_version =>
      let folded := split_header.tail.foldl headerFoldStep (0, [])
      .ok { route := route, verb := verb, content_length := folded.1,
            headers := folded.2, http_version := http_version }
    | _, _ => .panicked

/-- `HttpRequestHeader::get_string`: status line, then one `Key: Value`
line per header entry, then the terminating blank line. -/
def HttpRequestHeader.get_string (h : HttpRequestHeader) : RStr :=
  h.verb.get_str ++ [' '] ++ h.route ++ [' '] ++ h.http_version ++ rstr "\r\n"
    ++ (h.headers.map (fun kv => kv.1 ++ rstr ": " ++ kv.2 ++ rstr "\r\n")).flatten
    ++ rstr "\r\n"

/-- `HttpRequestHeader::to_bytes`. -/
def HttpRequestHeader.to_bytes (h : HttpRequestHeader) : List Nat :=
  strBytes h.get_string

/-- `HttpRequest::to_bytes`: header bytes followed by the body bytes. -/
def HttpRequest.to_bytes (r : HttpRequest) : List Nat :=
  r.header.to_bytes ++ (match r.body with
    | some b => b
    | none => [])

/-- The scanning loop of `HttpRequestHeader::create_from_buffer`:
walk the buffer keeping the previous three bytes `b3 = buffer[i-3]`,
`b2 = buffer[i-2]`, `b1 = buffer[i-1]`, and return the first index
`i > 4` with `buffer[i] = LF`, `buffer[i-1] = CR`, `buffer[i-2] = LF`,
`buffer[i-3] = CR`. -/
def scanIdx : Nat → Nat → Nat → Nat → List Nat → Option Nat
  | _, _, _, _, [] => none
  | i, b3, b2, b1, b0 :: rest =>
    if 4 < i ∧ b0 = 10 ∧ b1 = 13 ∧ b2 = 10 ∧ b3 = 13 then some i
    else scanIdx (i + 1) b2 b1 b0 rest

/-- The CR LF CR LF search of `create_from_buffer`, started at index 0
(the guard `i > 4` makes the initial window values irrelevant). -/
def findTerm (bs : List Nat) : Option Nat := scanIdx 0 0 0 0 bs

/-- `HttpRequestHeader::create_from_buffer`: find the header/body
boundary, lossily decode `buffer[0..i]` and parse it; the returned
body offset is `i + 1`. -/
def HttpRequestHeader.create_from_buffer (buffer : List Nat) :
    RResult (HttpRequestHeader × Nat) :=
  match findTerm buffer with
  | some i =>
    match HttpRequestHeader.parse_from_string (bytesStr (buffer.take i)) with
    | .ok h => .ok (h, i + 1)
    | .err e => .err e
    | .panicked => .panicked
  | none => .err "Request header larger than buffer"

/-- The single 4096-byte read of `HttpRequest::from_stream`: the bytes
available on the stream land at the front of a zero-initialized
4096-byte buffer. -/
def mkBuffer (bytes : List Nat) : List Nat :=
  bytes.take 4096 ++ List.replicate (4096 - bytes.length) 0

/-- `HttpRequest::from_stream`, as a pure function of the bytes the
single `stream.read` call produces: parse the header out of the
buffer, then slice the body out of the same buffer when the declared
content length is positive and fits; a body extending past the buffer
is silently dropped (`// TODO handle!` in the source). -/
def HttpRequest.from_stream (bytes : List Nat) : RResult HttpRequest :=
  let buffer := mkBuffer bytes
  match HttpRequestHeader.create_from_buffer buffer with
  | .ok (header, body_start_index) =>
    let body :=
      if header.content_length > 0 then
        if body_start_index + header.content_length > 4096 then
          none
        else
          some ((buffer.drop body_start_index).take header.content_length)
      else none
    .ok { header := header, body := body }
  | .err e => .err e
  | .panicked => .panicked

/-! ## WebSocket helper (`src/ws/mod.rs`) -/

/-- Truncation to 32 bits. -/
def w32 (x : Nat) : Nat := x % 4294967296

/-- 32-bit left rotation (on values below `2^32`). -/
def rotl32 (n x : Nat) : Nat := (x * 2 ^ n) % 4294967296 + x / 2 ^ (32 - n)

/-- Big-endian 8-byte encoding of a 64-bit value. -/
def beBytes8 (n : Nat) : List Nat :=
  [n / 2 ^ 56 % 256, n / 2 ^ 48 % 256, n / 2 ^ 40 % 256, n / 2 ^ 32 % 256,
   n / 2 ^ 24 % 256, n / 2 ^ 16 % 256, n / 2 ^ 8 % 256, n % 256]

/-- Big-endian 4-byte encoding of a 32-bit value. -/
def beBytes4 (n : Nat) : List Nat :=
  [n / 2 ^ 24 % 256, n / 2 ^ 16 % 256, n / 2 ^ 8 % 256, n % 256]

/-- SHA-1 message padding: `0x80`, zeros to 56 mod 64, then the
bit length as 8 big-endian bytes. -/
def sha1pad (msg : List Nat) : List Nat :=
  msg ++ [128] ++ List.replicate ((64 - (msg.length + 9) % 64) % 64) 0
    ++ beBytes8 (8 * msg.length)

/-- Group bytes into big-endian 32-bit words. -/
def toWords : List Nat → List Nat
  | a :: b :: c :: d :: rest => (a * 2 ^ 24 + b * 2 ^ 16 + c * 2 ^ 8 + d) :: toWords rest
  | _ => []

/-- Split a byte list into 64-byte chunks (fuel-based structural
recursion; the fuel is the list length, which always suffices). -/
def chunks64Aux : Nat → List Nat → List (List Nat)
  | 0, _ => []
  | _, [] => []
  | fuel + 1, l@(_ :: _) => l.take 64 :: chunks64Aux fuel (l.drop 64)

def chunks64 (l : List Nat) : List (List Nat) := chunks64Aux l.length l

/-- Extend 16 message words to the 80 words of the SHA-1 schedule. -/
def extendW (ws : List Nat) : List Nat :=
  (List.range 80).foldl (fun acc i =>
    if i < 16 then acc ++ [ws.getD i 0]
    else acc ++ [rotl32 1 ((((acc.getD (i - 3) 0).xor (acc.getD (i - 8) 0)).xor
      (acc.getD (i - 14) 0)).xor (acc.getD (i - 16) 0))]) []

/-- One SHA-1 round. -/
def sha1round (ws : List Nat) (st : Nat × Nat × Nat × Nat × Nat) (i : Nat) :
    Nat × Nat × Nat × Nat × Nat :=
  let (a, b, c, d, e) := st
  let f :=
    if i < 20 then Nat.lor (Nat.land b c) (Nat.land (Nat.xor b 4294967295) d)
    else if i < 40 then Nat.xor (Nat.xor b c) d
    else if i < 60 then Nat.lor (Nat.lor (Nat.land b c) (Nat.land b d)) (Nat.land c d)
    else Nat.xor (Nat.xor b c) d
  let k :=
    if i < 20 then 0x5A827999
    else if i < 40 then 0x6ED9EBA1
    else if i < 60 then 0x8F1BBCDC
    else 0xCA62C1D6
  let temp := w32 (rotl32 5 a + f + e + k + ws.getD i 0)
  (temp, a, rotl32 30 b, c, d)

/-- SHA-1 compression of one 64-byte chunk. -/
def processChunk (h : Nat × Nat × Nat × Nat × Nat) (chunk : List Nat) :
    Nat × Nat × Nat × Nat × Nat :=
  let ws := extendW (toWords chunk)
  let r := (List.range 80).foldl (sha1round ws) h
  (w32 (h.1 + r.1), w32 (h.2.1 + r.2.1), w32 (h.2.2.1 + r.2.2.1),
   w32 (h.2.2.2.1 + r.2.2.2.1), w32 (h.2.2.2.2 + r.2.2.2.2))

/-- SHA-1 of a byte sequence (the `sha1` crate's `Sha1` digest),
producing the 20 digest bytes. -/
def sha1 (msg : List Nat) : List Nat :=
  let hs := (chunks64 (sha1pad msg)).foldl processChunk
    (0x67452301, 0xEFCDAB89, 0x98BADCFE, 0x10325476, 0xC3D2E1F0)
  beBytes4 hs.1 ++ beBytes4 hs.2.1 ++ beBytes4 hs.2.2.1
    ++ beBytes4 hs.2.2.2.1 ++ beBytes4 hs.2.2.2.2

/-- The base64 alphabet. -/
def b64char (n : Nat) : Char :=
  (rstr "ABCDEFGHIJKLMNOPQRSTUVWXYZabcdefghijklmnopqrstuvwxyz0123456789+/").getD n 'A'

/-- Standard base64 encoding with `=` padding (`base64::encode`). -/
def base64Encode : List Nat → RStr
  | [] => []
  | [b1] => [b64char (b1 / 4), b64char (b1 % 4 * 16), '=', '=']
  | [b1, b2] => [b64char (b1 / 4), b64char (b1 % 4 * 16 + b2 / 16),
                 b64char (b2 % 16 * 4), '=']
  | b1 :: b2 :: b3 :: rest =>
    [b64char (b1 / 4), b64char (b1 % 4 * 16 + b2 / 16),
     b64char (b2 % 16 * 4 + b3 / 64), b64char (b3 % 64)] ++ base64Encode rest

/-- The fixed WebSocket GUID appended to the client key. -/
def wsGuid : RStr := rstr "258EAFA5-E914-47DA-95CA-C5AB0DC85B11"

/-- `ws::handle_handshake`: SHA-1 of the client key concatenated with
the fixed GUID, base64 encoded. -/
def handle_handshake (key : RStr) : RStr :=
  base64Encode (sha1 (strBytes (key ++ wsGuid)))

/-- `ws::handle_write`: a minimal single text frame — byte one
`0x80 | 1`, byte two `0 | length`, then the payload bytes. -/
def handle_write (data : List Nat) (length : Nat) : List Nat :=
  Nat.lor 128 1 :: Nat.lor 0 length :: data

/-! ## Broadcast hub (`src/messaging/mod.rs`) -/

/-- `Notification` from `src/messaging/mod.rs`. -/
inductive Notification where
  | FileCreated (path : RStr)
  | FileUpdated (path : RStr)
  | FileRemoved (path : RStr)
  | FileRenamed (oldPath newPath : RStr)
  deriving DecidableEq, Repr

/-- A subscriber's channel sender as the hub sees it: an identifier
for the owning connection plus whether the receiving end is still
alive.  `Sender::send` succeeds exactly when the receiver is alive. -/
structure Sender where
  id : Nat
  alive : Bool
  deriving DecidableEq, Repr

/-- The broadcast pass of `MessageHub::start` (the
`Ok(notification)` arm): iterate over the subscribers in order,
attempting delivery of a clone of the notification to each; a failed
send marks that subscriber's index in `dead_subs`; after the full
pass, when any index is marked, the marked indices are removed in
reverse (descending) order and the mark list is cleared.  Returns the
subscriber set after the pass and the successful deliveries in
order. -/
def deadIdx (subscribers : List Sender) : List Nat :=
  subscribers.enum.filterMap (fun p => if p.2.alive then none else some p.1)

/-- The broadcast pass proper (see the doc comment above `deadIdx`,
which describes the whole `Ok(notification)` arm). -/
def hubBroadcast (subscribers : List Sender) (notification : Notification) :
    List Sender × List (Nat × Notification) :=
  let deliveries := subscribers.filterMap (fun sub =>
    if sub.alive then some (sub.id, notification) else none)
  let dead_subs := deadIdx subscribers
  let subscribers' :=
    if dead_subs.length > 0 then
      dead_subs.reverse.foldl (fun acc i => acc.eraseIdx i) subscribers
    else subscribers
  (subscribers', deliveries)

/-- State of the hub loop: the subscriber set owned by the hub thread
and the queue of pending registrations on the subscription channel. -/
structure HubState where
  subscribers : List Sender
  pending : List Sender
  deriving DecidableEq, Repr

/-- The `receiver.try_recv()` match at the top of each hub iteration:
a single non-blocking receive appends at most one pending
registration to the subscriber set. -/
def hubCheckSubs (st : HubState) : HubState :=
  match st.pending with
  | [] => st
  | sub :: rest => { subscribers := st.subscribers ++ [sub], pending := rest }

/-- One full iteration of the hub loop: the subscription check, then
the notification receive with its 1-second timeout (`incoming = none`
models a timeout, after which the loop simply runs again). -/
def hubIteration (st : HubState) (incoming : Option Notification) :
    HubState × List (Nat × Notification) :=
  let st1 := hubCheckSubs st
  match incoming with
  | none => (st1, [])
  | some n =>
    let r := hubBroadcast st1.subscribers n
    ({ st1 with subscribers := r.1 }, r.2)

/-! ## Connection handling (`src/http/server.rs`) -/

/-- The payload chosen by the pusher loop for each notification
variant (all four are 12-byte ASCII literals). -/
def notePayload : Notification → RStr
  | .FileCreated _ => rstr "File created"
  | .FileUpdated _ => rstr "File updated"
  | .FileRemoved _ => rstr "File removed"
  | .FileRenamed _ _ => rstr "File renamed"

/-- Observable actions of a WebSocket pusher thread. -/
inductive PusherEvent where
  | sentSubscription
  | wroteFrame (bytes : List Nat)
  deriving DecidableEq, Repr

/-- One iteration of the pusher loop in `handle_ws_connection`: the
loop body begins with `sub_sender.send(Subscription::new(tx.clone()))`
and then blocks on `rx.recv()`, writing one frame when a notification
arrives (a `recv` error is ignored and the loop continues). -/
def pusherIterEvents (received : Option Notification) : List PusherEvent :=
  PusherEvent.sentSubscription ::
    (match received with
     | some notification =>
       [PusherEvent.wroteFrame (handle_write (strBytes (notePayload notification)) 12)]
     | none => [])

/-- The events a pusher connection emits over a run of the loop, one
list entry per iteration. -/
def pusherEvents (received : List (Option Notification)) : List PusherEvent :=
  (received.map pusherIterEvents).flatten

/-- Number of `Subscription` values sent to the hub in an event
trace. -/
def countSubscriptionsSent (evs : List PusherEvent) : Nat :=
  evs.countP (fun e =>
    match e with
    | PusherEvent.sentSubscription => true
    | _ => false)

/-- Replace the first occurrence of `needle` (`Regex::replace` with a
literal pattern). -/
def replaceFirst (needle repl : RStr) : RStr → RStr
  | [] => []
  | c :: rest =>
    if (c :: rest).take needle.length = needle then
      repl ++ (c :: rest).drop needle.length
    else
      c :: replaceFirst needle repl rest

/-- The literal replacement `inject_script` uses for `</body>`. -/
def injectReplacement : RStr :=
  rstr "<script>var ws = new WebSocket('ws://127.0.0.1:8080/ws/notify'); ws.onopen = function(evt) \x7b console.log('Connected'); \x7d;  ws.onmessage = function (evt) \x7b location.reload();  \x7d;</script>\n</body>"

/-- `inject_script` from `src/http/server.rs`. -/
def inject_script (document : RStr) : RStr :=
  replaceFirst (rstr "</body>") injectReplacement document

/-- `get_content_type` from `src/http/server.rs`. -/
def get_content_type (path : RStr) : RStr :=
  if (rstr ".css").isSuffixOf path then rstr "text/css"
  else if (rstr ".js").isSuffixOf path then rstr "application/javascript"
  else if (rstr ".png").isSuffixOf path then rstr "image/png"
  else if (rstr ".jpg").isSuffixOf path ∨ (rstr ".jpeg").isSuffixOf path then
    rstr "image/jpeg"
  else rstr "text/plain"

/-- Observable outcome of handling one accepted connection. -/
inductive ConnOutcome where
  | responded (status : HttpStatus) (contentType : RStr) (body : Option (List Nat))
  | upgradedConn (acceptKey : RStr)
  | panicked
  deriving DecidableEq, Repr

/-- `handle_connection` (with `handle_ws_connection` inlined for the
upgrade route), as a function of the index document (`index.html`
under the base path), the static file system (`File::open` of
`base_path ++ route`), and the request bytes.  Every `todo!()` in the
source — parse failure, missing index document, missing
`SEC-WEBSOCKET-KEY` — panics the worker thread. -/
def handle_connection (indexDoc : Option RStr) (fs : RStr → Option (List Nat))
    (bytes : List Nat) : ConnOutcome :=
  match HttpRequest.from_stream bytes with
  | .ok request =>
    if request.header.route = rstr "/ws/notify" then
      match hmGet request.header.headers (rstr "SEC-WEBSOCKET-KEY") with
      | some key => ConnOutcome.upgradedConn (handle_handshake key)
      | none => ConnOutcome.panicked
    else if request.header.route = rstr "/" ∨ request.header.route = rstr "/index"
        ∨ request.header.route = rstr "/index.html" then
      match indexDoc with
      | some doc =>
        ConnOutcome.responded HttpStatus.Ok (rstr "text/html")
          (some (strBytes (inject_script doc)))
      | none => ConnOutcome.panicked
    else
      match fs request.header.route with
      | some fileBytes =>
        ConnOutcome.responded HttpStatus.Ok (get_content_type request.header.route)
          (some fileBytes)
      | none =>
        ConnOutcome.responded HttpStatus.NotFound (rstr "text/plain")
          (some (strBytes (rstr "Not found")))
  | .err _ => ConnOutcome.panicked
  | .panicked => ConnOutcome.panicked

/-- A CR LF CR LF window whose last byte sits at offset `t + 3`:
matches the source's check `buffer[i]==10 && buffer[i-1]==13 &&
buffer[i-2]==10 && buffer[i-3]==13` with `t` the window start. -/
def patAt (V : List Nat) (t : Nat) : Prop :=
  V.getD (t + 3) 0 = 10 ∧ V.getD (t + 2) 0 = 13
    ∧ V.getD (t + 1) 0 = 10 ∧ V.getD t 0 = 13

instance (V : List Nat) (t : Nat) : Decidable (patAt V t) := by
  unfold patAt; infer_instance

/-- A CR LF CR LF occurrence starting at buffer index `s`. -/
def termStartAt (bs : List Nat) (s : Nat) : Prop :=
  s + 3 < bs.length ∧ bs.getD s 0 = 13 ∧ bs.getD (s + 1) 0 = 10
    ∧ bs.getD (s + 2) 0 = 13 ∧ bs.getD (s + 3) 0 = 10

instance (bs : List Nat) (s : Nat) : Decidable (termStartAt bs s) := by
  unfold termStartAt; infer_instance

/-- Join text pieces with CR LF separators (the shape `get_string`
produces before the terminating blank line). -/
def joinCRLF : List RStr → RStr
  | [] => []
  | [p] => p
  | p :: ps => p ++ '\r' :: '\n' :: joinCRLF ps

/-- The status line `get_string` renders. -/
def statusLine (h : HttpRequestHeader) : RStr :=
  h.verb.get_str ++ [' '] ++ h.route ++ [' '] ++ h.http_version

/-- The wire header lines `get_string` renders (without their
trailing CR LF). -/
def headerLines (h : HttpRequestHeader) : List RStr :=
  h.headers.map (fun kv => kv.1 ++ ':' :: ' ' :: kv.2)

/-- The content length the header loop of `parse_from_string` computes
from the mapping's lines: the last parseable `CONTENT-LENGTH` value
wins, starting from the given default. -/
def contentLengthOf (es : List (RStr × RStr)) (c0 : Nat) : Nat :=
  es.foldl (fun c kv =>
    if toUpperStr kv.1 = rstr "CONTENT-LENGTH" then
      match parseUsize kv.2 with
      | some i => i
      | none => c
    else c) c0

/-- The header mapping with every key uppercased (what a round trip
through the codec produces). -/
def upperHeaders (es : List (RStr × RStr)) : List (RStr × RStr) :=
  es.map (fun kv => (toUpperStr kv.1, kv.2))

/-- The bytes of the serialized header before the blank-line
terminator. -/
def serBytes (h : HttpRequestHeader) : List Nat :=
  strBytes (joinCRLF (statusLine h :: headerLines h))

/-! ## Theorems -/

/-- C2: `handle_handshake` is the pure composition of base64 encoding
with the SHA-1 digest of the client key concatenated with the fixed
GUID `258EAFA5-E914-47DA-95CA-C5AB0DC85B11`; on the RFC 6455 sample
key `dGhlIHNhbXBsZSBub25jZQ==` it returns exactly
`s3pPLMBiTxaQ9kYGzzhZRbK+xOo=`. -/
theorem C2_handle_handshake_spec :
    (∀ key : RStr, handle_handshake key = base64Encode (sha1 (strBytes (key ++ wsGuid))))
    ∧ wsGuid = rstr "258EAFA5-E914-47DA-95CA-C5AB0DC85B11"
    ∧ handle_handshake (rstr "dGhlIHNhbXBsZSBub25jZQ==")
        = rstr "s3pPLMBiTxaQ9kYGzzhZRbK+xOo=" :=
  ⟨fun _ => rfl, rfl, by decide⟩

/-- C3: for every payload and every declared length byte,
`handle_write` returns exactly the two header bytes `0x80 | 0x1` and
the declared length, followed by the payload verbatim; on payload
`"File updated"` with declared length 12 it produces exactly
`[0x81, 0x0C, 'F','i','l','e',' ','u','p','d','a','t','e','d']`. -/
theorem C3_handle_write_spec (data : List Nat) (length : Nat) (h : length < 256) :
    handle_write data length = 129 :: length :: data
    ∧ handle_write (strBytes (rstr "File updated")) 12
        = [0x81, 0x0C, 70, 105, 108, 101, 32, 117, 112, 100, 97, 116, 101, 100] := by
  refine ⟨?_, by decide⟩
  show Nat.lor 128 1 :: Nat.lor 0 length :: data = 129 :: length :: data
  have h1 : Nat.lor 128 1 = 129 := by decide
  have h2 : Nat.lor 0 length = length := Nat.zero_or length
  rw [h1, h2]

theorem C3_witness :
    0 < 256
    ∧ (handle_write [7] 0 = 129 :: 0 :: [7]
      ∧ handle_write (strBytes (rstr "File updated")) 12
          = [0x81, 0x0C, 70, 105, 108, 101, 32, 117, 112, 100, 97, 116, 101, 100]) :=
  ⟨by decide, C3_handle_write_spec [7] 0 (by decide)⟩

/-- C6: at the failing input — a request whose header declares
`Content-Length: 5000`, so that the body offset plus the length
exceeds the 4096-byte buffer — `HttpRequest::from_stream` returns
`Ok` with `body = None` (the `// TODO handle!` branch) instead of the
distinct `BodyTooLarge` error the claim requires. -/
theorem C6_oversized_body_silently_dropped :
    HttpRequest.from_stream
        (strBytes (rstr "GET / HTTP/1.1\r\nContent-Length: 5000\r\n\r\n"))
      = RResult.ok ⟨⟨rstr "/", .GET, 5000, [(rstr "CONTENT-LENGTH", rstr "5000")],
          rstr "HTTP/1.1"⟩, none⟩ := by
  decide

/-- C7: the connection handler panics (`todo!()` / out-of-bounds
indexing) rather than answering `400 Bad Request` on: an unknown verb
token, a status line with fewer than three space-separated tokens,
and an upgrade request to `/ws/notify` without a `SEC-WEBSOCKET-KEY`
header. -/
theorem C7_handler_panics_on_bad_input :
    handle_connection none (fun _ => none)
        (strBytes (rstr "FOO / HTTP/1.1\r\n\r\n")) = ConnOutcome.panicked
    ∧ handle_connection none (fun _ => none)
        (strBytes (rstr "GET /\r\n\r\n")) = ConnOutcome.panicked
    ∧ handle_connection none (fun _ => none)
        (strBytes (rstr "GET /ws/notify HTTP/1.1\r\nHost: x\r\n\r\n"))
      = ConnOutcome.panicked :=
  ⟨by decide, by decide, by decide⟩

/-- C8: the `sub_sender.send(Subscription::new(..))` call sits inside
the pusher loop, so one `Subscription` is sent to the hub on every
iteration: over a run of `k` iterations exactly `k` subscriptions are
sent, and in particular a connection that receives two notifications
has sent 2 subscriptions, contradicting the claimed total of 1. -/
theorem C8_subscription_sent_every_iteration :
    (∀ received : List (Option Notification),
      countSubscriptionsSent (pusherEvents received) = received.length)
    ∧ countSubscriptionsSent (pusherEvents
        [some (.FileUpdated (rstr "/site/index.html")),
         some (.FileUpdated (rstr "/site/index.html"))]) = 2 := by
  constructor
  · intro received
    induction received with
    | nil => rfl
    | cons r rest ih =>
      cases r <;>
        simp [pusherEvents, pusherIterEvents, countSubscriptionsSent,
          List.countP_cons] at ih ⊢ <;>
        omega
  · decide

/-- C9 counterexample: with two registrations pending at the start of
an iteration, the single `try_recv` appends only the first; the
second is still pending after the iteration, so not all `k ≥ 1`
pending registrations are appended during one iteration. -/
theorem C9_counterexample :
    (hubIteration ⟨[], [⟨0, true⟩, ⟨1, true⟩]⟩ none).1 = ⟨[⟨0, true⟩], [⟨1, true⟩]⟩
    ∧ (hubIteration ⟨[], [⟨0, true⟩, ⟨1, true⟩]⟩ none).1.subscribers
        ≠ [⟨0, true⟩, ⟨1, true⟩] :=
  ⟨by decide, by decide⟩

/-- C9 (amended): each hub iteration appends at most one pending
registration — exactly the oldest when any is pending, before the
notification wait — and `k` pending registrations are fully appended,
in insertion order, only after `k` iterations. -/
theorem C9_amended_one_registration_per_iteration :
    (∀ subs : List Sender, hubCheckSubs ⟨subs, []⟩ = ⟨subs, []⟩)
    ∧ (∀ (subs : List Sender) (sub : Sender) (rest : List Sender),
        hubCheckSubs ⟨subs, sub :: rest⟩ = ⟨subs ++ [sub], rest⟩)
    ∧ (∀ (subs pend : List Sender),
        hubCheckSubs^[pend.length] ⟨subs, pend⟩ = ⟨subs ++ pend, []⟩) := by
  refine ⟨fun _ => rfl, fun _ _ _ => rfl, ?_⟩
  intro subs pend
  induction pend generalizing subs with
  | nil => simp [hubCheckSubs]
  | cons p rest ih =>
    rw [List.length_cons, Function.iterate_succ_apply]
    show hubCheckSubs^[rest.length] ⟨subs ++ [p], rest⟩ = _
    rw [ih]
    simp

/-- Unfolding `deadIdx` over a cons cell: a dead head contributes
index 0, and every index from the tail shifts up by one. -/
theorem filterMap_enumFrom_succ (xs : List Sender) (n : Nat) :
    (List.enumFrom (n + 1) xs).filterMap
        (fun p => if p.2.alive then none else some p.1)
      = ((List.enumFrom n xs).filterMap
          (fun p => if p.2.alive then none else some p.1)).map (· + 1) := by
  induction xs generalizing n with
  | nil => rfl
  | cons x xs ih =>
    simp only [List.enumFrom, List.filterMap_cons]
    cases h : x.alive with
    | true =>
      simp only [h, ite_true]
      exact ih (n + 1)
    | false =>
      simp only [h, Bool.false_eq_true, ite_false, List.map_cons]
      rw [ih (n + 1)]

theorem deadIdx_cons (x : Sender) (xs : List Sender) :
    deadIdx (x :: xs)
      = (if x.alive then ([] : List Nat) else [0]) ++ (deadIdx xs).map (· + 1) := by
  show (List.enumFrom 0 (x :: xs)).filterMap _ = _
  simp only [List.enumFrom, List.filterMap_cons]
  cases h : x.alive with
  | true =>
    simp only [h, ite_true, List.nil_append]
    exact filterMap_enumFrom_succ xs 0
  | false =>
    simp only [h, Bool.false_eq_true, ite_false, List.singleton_append]
    rw [filterMap_enumFrom_succ xs 0]
    rfl

/-- Erasing at shifted indices leaves the head untouched. -/
theorem foldl_eraseIdx_shift (B : List Nat) (x : Sender) (l : List Sender) :
    (B.map (· + 1)).foldl (fun acc i => acc.eraseIdx i) (x :: l)
      = x :: B.foldl (fun acc i => acc.eraseIdx i) l := by
  induction B generalizing l with
  | nil => rfl
  | cons b bs ih =>
    rw [List.map_cons, List.foldl_cons, List.foldl_cons, List.eraseIdx_cons_succ, ih]

/-- Removing the dead indices in descending order is exactly filtering
out the dead subscribers. -/
theorem eraseDead (l : List Sender) :
    (deadIdx l).reverse.foldl (fun acc i => acc.eraseIdx i) l
      = l.filter (fun s => s.alive) := by
  induction l with
  | nil => rfl
  | cons x xs ih =>
    rw [deadIdx_cons]
    cases h : x.alive with
    | true =>
      rw [if_pos rfl, List.nil_append, ← List.map_reverse, foldl_eraseIdx_shift, ih,
        List.filter_cons]
      simp [h]
    | false =>
      rw [if_neg (by simp [h]), List.reverse_append, List.reverse_singleton,
        ← List.map_reverse, List.foldl_append, foldl_eraseIdx_shift, ih]
      simp [List.filter_cons, h]

/-- The successful deliveries of a pass are one per live subscriber,
in order. -/
theorem broadcast_deliveries (subs : List Sender) (n : Notification) :
    subs.filterMap (fun sub => if sub.alive then some (sub.id, n) else none)
      = (subs.filter (fun s => s.alive)).map (fun s => (s.id, n)) := by
  induction subs with
  | nil => rfl
  | cons x xs ih =>
    cases h : x.alive <;> simp [List.filterMap_cons, List.filter_cons, h, ih]

/-- A broadcast pass keeps exactly the live subscribers and delivers
one clone to each of them, in subscriber order. -/
theorem hubBroadcast_eq (subs : List Sender) (n : Notification) :
    hubBroadcast subs n
      = (subs.filter (fun s => s.alive),
         (subs.filter (fun s => s.alive)).map (fun s => (s.id, n))) := by
  unfold hubBroadcast
  rw [broadcast_deliveries]
  refine congrArg (fun z => (z, _)) ?_
  by_cases hd : (deadIdx subs).length > 0
  · rw [if_pos hd, eraseDead]
  · rw [if_neg hd]
    have hnil : deadIdx subs = [] := by
      cases he : deadIdx subs with
      | nil => rfl
      | cons a as => rw [he] at hd; simp at hd
    have h2 := eraseDead subs
    rw [hnil, List.reverse_nil, List.foldl_nil] at h2
    exact h2

/-- C4: over one broadcast pass, when every subscriber channel is
open, exactly `N` deliveries occur (one clone per subscriber, set
unchanged); when exactly subscriber `k` is closed, after the pass the
subscriber set is the original with position `k` removed (marked
indices being removed after the full pass, descending) and each of the
remaining `N - 1` subscribers still receives the notification. -/
theorem C4_broadcast_pass (pre post : List Sender) (deadSub : Sender) (n : Notification)
    (hPre : ∀ s ∈ pre, s.alive = true) (hPost : ∀ s ∈ post, s.alive = true)
    (hDead : deadSub.alive = false) :
    (∀ subs : List Sender, (∀ s ∈ subs, s.alive = true) →
      hubBroadcast subs n = (subs, subs.map (fun s => (s.id, n)))
        ∧ (hubBroadcast subs n).2.length = subs.length)
    ∧ hubBroadcast (pre ++ deadSub :: post) n
        = (pre ++ post, (pre ++ post).map (fun s => (s.id, n)))
    ∧ (hubBroadcast (pre ++ deadSub :: post) n).2.length
        = (pre ++ deadSub :: post).length - 1 := by
  have key : (pre ++ deadSub :: post).filter (fun s => s.alive) = pre ++ post := by
    rw [List.filter_append, List.filter_cons]
    simp [hDead, List.filter_eq_self.mpr hPre, List.filter_eq_self.mpr hPost]
  refine ⟨?_, ?_, ?_⟩
  · intro subs hAll
    rw [hubBroadcast_eq, List.filter_eq_self.mpr hAll]
    exact ⟨rfl, by simp⟩
  · rw [hubBroadcast_eq, key]
  · rw [hubBroadcast_eq, key]
    simp

theorem C4_witness :
    hubBroadcast ([⟨0, true⟩] ++ ⟨1, false⟩ :: [⟨2, true⟩])
        (Notification.FileUpdated (rstr "x"))
      = ([⟨0, true⟩] ++ [⟨2, true⟩],
         (([⟨0, true⟩] ++ [⟨2, true⟩] : List Sender)).map
           (fun s => (s.id, Notification.FileUpdated (rstr "x")))) :=
  (C4_broadcast_pass [⟨0, true⟩] [⟨2, true⟩] ⟨1, false⟩
    (Notification.FileUpdated (rstr "x"))
    (by decide) (by decide) (by decide)).2.1

/-! ## Splitting lemmas -/

theorem split2_ne_nil (a b : Char) : ∀ s : RStr, split2 a b s ≠ []
  | [] => by simp [split2]
  | [c] => by simp [split2]
  | c :: d :: rest => by
    rw [split2]
    by_cases h : c = a ∧ d = b
    · rw [if_pos h]; simp
    · rw [if_neg h]
      cases hs : split2 a b (d :: rest) <;> simp

/-- A string without the separator is a single chunk. -/
theorem split2_no_sep (a b : Char) : ∀ s : RStr, contains2 a b s = false →
    split2 a b s = [s]
  | [], _ => rfl
  | [c], _ => rfl
  | c :: d :: rest, h => by
    rw [contains2] at h
    rw [split2]
    by_cases hcd : c = a ∧ d = b
    · rw [if_pos hcd] at h; cases h
    · rw [if_neg hcd] at h ⊢
      rw [split2_no_sep a b (d :: rest) h]

/-- Splitting a separator-free prefix followed by the separator peels
off that prefix as the first chunk. -/
theorem split2_append_sep (a b : Char) (hab : a ≠ b) :
    ∀ p rest : RStr, contains2 a b p = false →
      split2 a b (p ++ a :: b :: rest) = p :: split2 a b rest
  | [], rest, _ => by
    show split2 a b (a :: b :: rest) = [] :: split2 a b rest
    rw [split2, if_pos ⟨rfl, rfl⟩]
  | [c], rest, _ => by
    show split2 a b (c :: a :: b :: rest) = [c] :: split2 a b rest
    have h0 : split2 a b (a :: b :: rest) = [] :: split2 a b rest :=
      split2_append_sep a b hab [] rest rfl
    rw [split2, if_neg (fun hx => hab hx.2), h0]
  | c :: d :: p', rest, h => by
    rw [contains2] at h
    by_cases hcd : c = a ∧ d = b
    · rw [if_pos hcd] at h; cases h
    · rw [if_neg hcd] at h
      show split2 a b (c :: d :: (p' ++ a :: b :: rest)) = (c :: d :: p') :: split2 a b rest
      rw [split2]
      rw [show (d :: (p' ++ a :: b :: rest)) = ((d :: p') ++ a :: b :: rest) from rfl]
      rw [split2_append_sep a b hab (d :: p') rest h, if_neg hcd]

/-- Appending `[a, b, a]` to any string appends exactly the chunk
`[a]` to its split (the appended separator cannot combine with the
existing text, because no separator starts with `b` or ends with
`a`'s partner). -/
theorem split2_append_aba (a b : Char) (hab : a ≠ b) :
    ∀ x : RStr, split2 a b (x ++ [a, b, a]) = split2 a b x ++ [[a]]
  | [] => by
    show split2 a b (a :: b :: [a]) = [[]] ++ [[a]]
    rw [split2, if_pos ⟨rfl, rfl⟩]
    rfl
  | [c] => by
    show split2 a b (c :: a :: b :: [a]) = [[c]] ++ [[a]]
    have h0 : split2 a b (a :: b :: [a]) = [] :: split2 a b [a] :=
      split2_append_sep a b hab [] [a] rfl
    rw [split2, if_neg (fun hx => hab hx.2), h0]
    rfl
  | c :: d :: r => by
    show split2 a b (c :: d :: (r ++ [a, b, a])) = split2 a b (c :: d :: r) ++ [[a]]
    rw [split2, split2]
    by_cases hcd : c = a ∧ d = b
    · rw [if_pos hcd, if_pos hcd, split2_append_aba a b hab r]
      rfl
    · rw [if_neg hcd, if_neg hcd]
      rw [show (d :: (r ++ [a, b, a])) = ((d :: r) ++ [a, b, a]) from rfl,
        split2_append_aba a b hab (d :: r)]
      cases hs : split2 a b (d :: r) with
      | nil => exact absurd hs (split2_ne_nil a b (d :: r))
      | cons hd tl => simp

theorem split1_ne_nil (a : Char) : ∀ s : RStr, split1 a s ≠ []
  | [] => by simp [split1]
  | c :: rest => by
    rw [split1]
    by_cases h : c = a
    · rw [if_pos h]; simp
    · rw [if_neg h]
      cases hs : split1 a rest <;> simp

theorem split1_no_sep (a : Char) : ∀ s : RStr, (∀ c ∈ s, c ≠ a) →
    split1 a s = [s]
  | [], _ => rfl
  | c :: rest, h => by
    rw [split1, if_neg (h c (by simp)), split1_no_sep a rest (fun x hx => h x (by simp [hx]))]

theorem split1_append_sep (a : Char) :
    ∀ p rest : RStr, (∀ c ∈ p, c ≠ a) →
      split1 a (p ++ a :: rest) = p :: split1 a rest
  | [], rest, _ => by
    show split1 a (a :: rest) = [] :: split1 a rest
    rw [split1, if_pos rfl]
  | c :: p', rest, h => by
    show split1 a (c :: (p' ++ a :: rest)) = (c :: p') :: split1 a rest
    rw [split1, if_neg (h c (by simp)),
      split1_append_sep a p' rest (fun x hx => h x (by simp [hx]))]

/-! ## HashMap and header-fold lemmas -/

/-- Every entry of `hmInsert m k v` is an old entry or `(k, v)`. -/
theorem hmInsert_mem (m : List (RStr × RStr)) (k v : RStr) :
    ∀ kv ∈ hmInsert m k v, kv ∈ m ∨ kv = (k, v) := by
  intro kv hkv
  unfold hmInsert at hkv
  by_cases h : m.any (fun p => p.1 = k)
  · rw [if_pos h] at hkv
    rcases List.mem_map.mp hkv with ⟨p, hp, he⟩
    by_cases hpk : p.1 = k
    · right; rw [if_pos hpk] at he; exact he.symm
    · left; rw [if_neg hpk] at he; exact he ▸ hp
  · rw [if_neg h] at hkv
    rcases List.mem_append.mp hkv with h1 | h1
    · left; exact h1
    · right; simpa using h1

theorem hmGet_append_of_not_mem (m : List (RStr × RStr)) (k v : RStr)
    (h : ∀ p ∈ m, p.1 ≠ k) : hmGet (m ++ [(k, v)]) k = some v := by
  induction m with
  | nil => simp [hmGet, List.find?]
  | cons p m' ih =>
    have hp : p.1 ≠ k := h p (by simp)
    rw [List.cons_append]
    show ((p :: (m' ++ [(k, v)])).find? (fun q => q.1 = k)).map (fun q => q.2) = some v
    rw [List.find?_cons_of_neg _ (by simpa using hp)]
    exact ih (fun q hq => h q (by simp [hq]))

theorem hmGet_replace (m : List (RStr × RStr)) (k v : RStr)
    (h : m.any (fun p => p.1 = k)) :
    hmGet (m.map (fun p => if p.1 = k then (k, v) else p)) k = some v := by
  induction m with
  | nil => simp at h
  | cons p m' ih =>
    rw [List.map_cons]
    by_cases hpk : p.1 = k
    · rw [if_pos hpk]
      show (((k, v) :: _).find? (fun q => q.1 = k)).map (fun q => q.2) = some v
      rw [List.find?_cons_of_pos _ (by simp)]
      rfl
    · rw [if_neg hpk]
      show ((p :: _).find? (fun q => q.1 = k)).map (fun q => q.2) = some v
      rw [List.find?_cons_of_neg _ (by simpa using hpk)]
      refine ih ?_
      rcases List.any_eq_true.mp h with ⟨q, hq, hqk⟩
      rcases List.mem_cons.mp hq with rfl | hq'
      · exact absurd (by simpa using hqk) hpk
      · exact List.any_eq_true.mpr ⟨q, hq', hqk⟩

/-- Looking up the inserted key finds the inserted value. -/
theorem hmGet_hmInsert_self (m : List (RStr × RStr)) (k v : RStr) :
    hmGet (hmInsert m k v) k = some v := by
  unfold hmInsert
  by_cases h : m.any (fun p => p.1 = k)
  · rw [if_pos h]; exact hmGet_replace m k v h
  · rw [if_neg h]
    refine hmGet_append_of_not_mem m k v ?_
    intro p hp hpk
    exact h (List.any_eq_true.mpr ⟨p, hp, by simpa using hpk⟩)

/-- Replacing entries under key `k'` does not change a lookup of a
different key. -/
theorem hmGet_map_replace_ne (m : List (RStr × RStr)) (k' v k : RStr) (hne : k' ≠ k) :
    hmGet (m.map (fun p => if p.1 = k' then (k', v) else p)) k = hmGet m k := by
  induction m with
  | nil => rfl
  | cons p m' ih =>
    rw [List.map_cons]
    by_cases hpk : p.1 = k'
    · rw [if_pos hpk]
      unfold hmGet
      rw [List.find?_cons_of_neg _ (by simpa using hne),
        List.find?_cons_of_neg _ (by simp [hpk, hne])]
      exact ih
    · rw [if_neg hpk]
      by_cases hp : p.1 = k
      · unfold hmGet
        rw [List.find?_cons_of_pos _ (by simpa using hp),
          List.find?_cons_of_pos _ (by simpa using hp)]
      · unfold hmGet
        rw [List.find?_cons_of_neg _ (by simpa using hp),
          List.find?_cons_of_neg _ (by simpa using hp)]
        exact ih

/-- Appending an entry under a different key does not change a
lookup. -/
theorem hmGet_append_ne (m : List (RStr × RStr)) (k' v k : RStr) (hne : k' ≠ k) :
    hmGet (m ++ [(k', v)]) k = hmGet m k := by
  induction m with
  | nil =>
    unfold hmGet
    rw [List.nil_append, List.find?_cons_of_neg _ (by simpa using hne)]
  | cons p m' ih =>
    rw [List.cons_append]
    by_cases hp : p.1 = k
    · unfold hmGet
      rw [List.find?_cons_of_pos _ (by simpa using hp),
        List.find?_cons_of_pos _ (by simpa using hp)]
    · unfold hmGet
      rw [List.find?_cons_of_neg _ (by simpa using hp),
        List.find?_cons_of_neg _ (by simpa using hp)]
      exact ih

/-- Inserting under a different key does not change a lookup. -/
theorem hmGet_hmInsert_ne (m : List (RStr × RStr)) (k' v k : RStr) (hne : k' ≠ k) :
    hmGet (hmInsert m k' v) k = hmGet m k := by
  unfold hmInsert
  by_cases h : m.any (fun p => p.1 = k')
  · rw [if_pos h]; exact hmGet_map_replace_ne m k' v k hne
  · rw [if_neg h]; exact hmGet_append_ne m k' v k hne

/-- Every header entry produced by the fold originates from one of the
folded lines: its key is the uppercased first `": "`-chunk of that
line and its value the second chunk. -/
theorem fold_origin :
    ∀ (lines : List RStr) (acc : Nat × List (RStr × RStr))
      (kv : RStr × RStr), kv ∈ (lines.foldl headerFoldStep acc).2 →
      kv ∈ acc.2 ∨ ∃ line ∈ lines, (splitColonSpace line).length > 1
        ∧ kv.1 = toUpperStr ((splitColonSpace line).headD [])
        ∧ kv.2 = (splitColonSpace line).getD 1 [] := by
  intro lines
  induction lines with
  | nil => intro acc kv h; exact Or.inl h
  | cons l ls ih =>
    intro acc kv h
    rw [List.foldl_cons] at h
    rcases ih (headerFoldStep acc l) kv h with h1 | ⟨line, hline, hcond⟩
    · unfold headerFoldStep at h1
      by_cases hlen : (splitColonSpace l).length > 1
      · rw [if_pos hlen] at h1
        rcases hmInsert_mem _ _ _ kv h1 with h2 | h2
        · exact Or.inl h2
        · refine Or.inr ⟨l, by simp, hlen, ?_, ?_⟩
          · rw [h2]
          · rw [h2]
      · rw [if_neg hlen] at h1
        exact Or.inl h1
    · exact Or.inr ⟨line, by simp [hline], hcond⟩

/-- Folding lines none of which carries the watched (uppercased) name
leaves the lookup of that name unchanged. -/
theorem fold_preserves_hmGet (key : RStr) :
    ∀ (lines : List RStr) (acc : Nat × List (RStr × RStr)),
      (∀ l ∈ lines, toUpperStr ((splitColonSpace l).headD []) ≠ key) →
      hmGet (lines.foldl headerFoldStep acc).2 key = hmGet acc.2 key := by
  intro lines
  induction lines with
  | nil => intro acc _; rfl
  | cons l ls ih =>
    intro acc h
    rw [List.foldl_cons]
    rw [ih (headerFoldStep acc l) (fun x hx => h x (by simp [hx]))]
    unfold headerFoldStep
    by_cases hlen : (splitColonSpace l).length > 1
    · rw [if_pos hlen]
      exact hmGet_hmInsert_ne _ _ _ _ (h l (by simp))
    · rw [if_neg hlen]

/-- Inversion of a successful `parse_from_string`. -/
theorem parse_from_string_ok_inv (data : RStr) (h : HttpRequestHeader)
    (hp : HttpRequestHeader.parse_from_string data = .ok h) :
    HttpVerb.from_str ((splitSpace ((splitCRLF data).headD [])).headD []) = .ok h.verb
    ∧ (splitSpace ((splitCRLF data).headD [])).get? 1 = some h.route
    ∧ (splitSpace ((splitCRLF data).headD [])).get? 2 = some h.http_version
    ∧ h.content_length = ((splitCRLF data).tail.foldl headerFoldStep (0, [])).1
    ∧ h.headers = ((splitCRLF data).tail.foldl headerFoldStep (0, [])).2 := by
  simp only [HttpRequestHeader.parse_from_string] at hp
  cases hv : HttpVerb.from_str ((splitSpace ((splitCRLF data).headD [])).headD []) with
  | error e => rw [hv] at hp; cases hp
  | ok verb =>
    rw [hv] at hp
    cases h1 : (splitSpace ((splitCRLF data).headD [])).get? 1 with
    | none => rw [h1] at hp; cases hp
    | some route =>
      cases h2 : (splitSpace ((splitCRLF data).headD [])).get? 2 with
      | none => rw [h1, h2] at hp; cases hp
      | some version =>
        rw [h1, h2] at hp
        cases hp
        exact ⟨rfl, rfl, rfl, rfl, rfl⟩

/-- The header-fold step on a well-formed wire line
`name ++ ": " ++ value` (name and value `": "`-free) inserts the
uppercased name with the unchanged value. -/
theorem headerFoldStep_clean (acc : Nat × List (RStr × RStr)) (name value : RStr)
    (hn : hasColonSpace name = false) (hv : hasColonSpace value = false) :
    headerFoldStep acc (name ++ ':' :: ' ' :: value)
      = (if toUpperStr name = rstr "CONTENT-LENGTH" then
           (match parseUsize value with
            | some i => i
            | none => acc.1)
         else acc.1,
         hmInsert acc.2 (toUpperStr name) value) := by
  have hsplit : splitColonSpace (name ++ ':' :: ' ' :: value) = [name, value] := by
    show split2 ':' ' ' (name ++ ':' :: ' ' :: value) = [name, value]
    rw [split2_append_sep ':' ' ' (by decide) name value hn,
      split2_no_sep ':' ' ' value hv]
  unfold headerFoldStep
  rw [hsplit]
  rfl

/-- C10 counterexample: the claim's parenthetical "values are stored
unchanged" fails when a value contains `": "`.  The wire line
`"X-Test: a: b"` decomposes as name `"X-Test"` and value `"a: b"`,
but the parsed mapping stores only `"a"` — the value is truncated at
its first `": "`. -/
theorem C10_counterexample :
    rstr "X-Test: a: b" = rstr "X-Test" ++ ':' :: ' ' :: rstr "a: b"
    ∧ HttpRequestHeader.parse_from_string (rstr "GET / HTTP/1.1\r\nX-Test: a: b")
        = RResult.ok ⟨rstr "/", .GET, 0, [(rstr "X-TEST", rstr "a")], rstr "HTTP/1.1"⟩
    ∧ rstr "a" ≠ rstr "a: b" :=
  ⟨by decide, by decide, by decide⟩

/-- C10 (amended): every key of a parsed header mapping is the
uppercased first `": "`-chunk of some wire line, with the second
chunk as value; for a well-formed line `name ++ ": " ++ value` (name
and value free of `": "`) those chunks are exactly the wire name and
the unchanged wire value; and an upgrade request carrying its
`Sec-WebSocket-Key` under any letter casing of the name makes the
handler's lookup of the literal `"SEC-WEBSOCKET-KEY"` find the client
key. -/
theorem C10_amended_header_normalization :
    (∀ (data : RStr) (h : HttpRequestHeader),
      HttpRequestHeader.parse_from_string data = .ok h →
      ∀ kv ∈ h.headers, ∃ line ∈ (splitCRLF data).tail,
        (splitColonSpace line).length > 1
        ∧ kv.1 = toUpperStr ((splitColonSpace line).headD [])
        ∧ kv.2 = (splitColonSpace line).getD 1 [])
    ∧ (∀ name value : RStr, hasColonSpace name = false →
        hasColonSpace value = false →
        splitColonSpace (name ++ ':' :: ' ' :: value) = [name, value])
    ∧ (∀ (data : RStr) (h : HttpRequestHeader) (pre post : List RStr)
        (name value : RStr),
        HttpRequestHeader.parse_from_string data = .ok h →
        (splitCRLF data).tail = pre ++ (name ++ ':' :: ' ' :: value) :: post →
        hasColonSpace name = false → hasColonSpace value = false →
        toUpperStr name = rstr "SEC-WEBSOCKET-KEY" →
        (∀ l ∈ pre ++ post,
          toUpperStr ((splitColonSpace l).headD []) ≠ rstr "SEC-WEBSOCKET-KEY") →
        hmGet h.headers (rstr "SEC-WEBSOCKET-KEY") = some value) := by
  refine ⟨?_, ?_, ?_⟩
  · intro data h hp kv hkv
    have hinv := (parse_from_string_ok_inv data h hp).2.2.2.2
    rw [hinv] at hkv
    rcases fold_origin (splitCRLF data).tail (0, []) kv hkv with h1 | h1
    · cases h1
    · exact h1
  · intro name value hn hv
    show split2 ':' ' ' (name ++ ':' :: ' ' :: value) = [name, value]
    rw [split2_append_sep ':' ' ' (by decide) name value hn,
      split2_no_sep ':' ' ' value hv]
  · intro data h pre post name value hp htail hn hv hname hothers
    have hinv := (parse_from_string_ok_inv data h hp).2.2.2.2
    rw [hinv, htail, List.foldl_append, List.foldl_cons]
    rw [fold_preserves_hmGet (rstr "SEC-WEBSOCKET-KEY") post _
      (fun l hl => hothers l (by simp [hl]))]
    rw [headerFoldStep_clean _ name value hn hv, hname]
    exact hmGet_hmInsert_self _ _ _

theorem C10_witness :
    hmGet ((⟨rstr "/ws/notify", .GET, 0,
        [(rstr "SEC-WEBSOCKET-KEY", rstr "abc123")],
        rstr "HTTP/1.1"⟩ : HttpRequestHeader).headers)
      (rstr "SEC-WEBSOCKET-KEY") = some (rstr "abc123") :=
  C10_amended_header_normalization.2.2
    (rstr "GET /ws/notify HTTP/1.1\r\nsEc-WebSocket-Key: abc123")
    ⟨rstr "/ws/notify", .GET, 0, [(rstr "SEC-WEBSOCKET-KEY", rstr "abc123")],
      rstr "HTTP/1.1"⟩
    [] [] (rstr "sEc-WebSocket-Key") (rstr "abc123")
    (by decide) (by decide) (by decide) (by decide) (by decide) (by simp)

/-! ## Terminator-scan characterization -/

theorem patAt_cons (x : Nat) (V : List Nat) (t : Nat) :
    patAt (x :: V) (t + 1) ↔ patAt V t := by
  have e1 : (x :: V).getD (t + 1 + 3) 0 = V.getD (t + 3) 0 := by
    show (x :: V).getD ((t + 3) + 1) 0 = V.getD (t + 3) 0
    exact List.getD_cons_succ
  have e2 : (x :: V).getD (t + 1 + 2) 0 = V.getD (t + 2) 0 := by
    show (x :: V).getD ((t + 2) + 1) 0 = V.getD (t + 2) 0
    exact List.getD_cons_succ
  have e3 : (x :: V).getD (t + 1 + 1) 0 = V.getD (t + 1) 0 := by
    show (x :: V).getD ((t + 1) + 1) 0 = V.getD (t + 1) 0
    exact List.getD_cons_succ
  have e4 : (x :: V).getD (t + 1) 0 = V.getD t 0 := List.getD_cons_succ
  unfold patAt
  rw [e1, e2, e3, e4]

theorem scanIdx_none_iff (A : List Nat) : ∀ (i b3 b2 b1 : Nat),
    scanIdx i b3 b2 b1 A = none ↔
      ∀ t, t < A.length → ¬(4 < i + t ∧ patAt (b3 :: b2 :: b1 :: A) t) := by
  induction A with
  | nil => intro i b3 b2 b1; simp [scanIdx]
  | cons a A' ih =>
    intro i b3 b2 b1
    rw [scanIdx]
    by_cases hc : 4 < i ∧ a = 10 ∧ b1 = 13 ∧ b2 = 10 ∧ b3 = 13
    · rw [if_pos hc]
      constructor
      · intro h; cases h
      · intro h
        exact absurd ⟨by omega, hc.2.1, hc.2.2.1, hc.2.2.2.1, hc.2.2.2.2⟩
          (h 0 (by simp))
    · rw [if_neg hc]
      rw [ih (i + 1) b2 b1 a]
      constructor
      · intro h t ht hcon
        cases t with
        | zero =>
          exact hc ⟨by omega, hcon.2.1, hcon.2.2.1, hcon.2.2.2.1, hcon.2.2.2.2⟩
        | succ t' =>
          refine h t' (by simp only [List.length_cons] at ht; omega) ⟨by omega, ?_⟩
          exact (patAt_cons b3 (b2 :: b1 :: a :: A') t').mp hcon.2
      · intro h t' ht' hcon
        refine h (t' + 1) (by simpa using Nat.succ_lt_succ ht') ⟨by omega, ?_⟩
        exact (patAt_cons b3 (b2 :: b1 :: a :: A') t').mpr hcon.2

theorem scanIdx_some_iff (A : List Nat) : ∀ (i b3 b2 b1 j : Nat),
    scanIdx i b3 b2 b1 A = some j ↔
      ∃ t, t < A.length ∧ j = i + t
        ∧ (4 < i + t ∧ patAt (b3 :: b2 :: b1 :: A) t)
        ∧ ∀ t' < t, ¬(4 < i + t' ∧ patAt (b3 :: b2 :: b1 :: A) t') := by
  induction A with
  | nil => intro i b3 b2 b1 j; simp [scanIdx]
  | cons a A' ih =>
    intro i b3 b2 b1 j
    rw [scanIdx]
    by_cases hc : 4 < i ∧ a = 10 ∧ b1 = 13 ∧ b2 = 10 ∧ b3 = 13
    · rw [if_pos hc]
      constructor
      · intro h
        refine ⟨0, by simp, by cases h; omega, ⟨by omega, hc.2.1, hc.2.2.1, hc.2.2.2.1, hc.2.2.2.2⟩, ?_⟩
        intro t' ht'; omega
      · rintro ⟨t, ht, hj, hcond, hmin⟩
        cases t with
        | zero => cases hj; rfl
        | succ t' =>
          exact absurd ⟨by omega, hc.2.1, hc.2.2.1, hc.2.2.2.1, hc.2.2.2.2⟩
            (hmin 0 (by omega))
    · rw [if_neg hc]
      rw [ih (i + 1) b2 b1 a j]
      constructor
      · rintro ⟨t', ht', hj, hcond, hmin⟩
        refine ⟨t' + 1, by simpa using Nat.succ_lt_succ ht', by omega,
          ⟨by omega, (patAt_cons b3 (b2 :: b1 :: a :: A') t').mpr hcond.2⟩, ?_⟩
        intro t'' ht'' hcon''
        cases t'' with
        | zero =>
          exact hc ⟨by omega, hcon''.2.1, hcon''.2.2.1, hcon''.2.2.2.1, hcon''.2.2.2.2⟩
        | succ s =>
          refine hmin s (by omega) ⟨by omega, ?_⟩
          exact (patAt_cons b3 (b2 :: b1 :: a :: A') s).mp hcon''.2
      · rintro ⟨t, ht, hj, hcond, hmin⟩
        cases t with
        | zero =>
          exact absurd ⟨by omega, hcond.2.1, hcond.2.2.1, hcond.2.2.2.1, hcond.2.2.2.2⟩ hc
        | succ t' =>
          refine ⟨t', by simp only [List.length_cons] at ht; omega, by omega,
            ⟨by omega, (patAt_cons b3 (b2 :: b1 :: a :: A') t').mp hcond.2⟩, ?_⟩
          intro s hs hcon
          refine hmin (s + 1) (by omega) ⟨by omega, ?_⟩
          exact (patAt_cons b3 (b2 :: b1 :: a :: A') s).mpr hcon.2

theorem getD_zzz (bs : List Nat) (n : Nat) :
    (0 :: 0 :: 0 :: bs).getD (n + 3) 0 = bs.getD n 0 := by
  show (0 :: 0 :: 0 :: bs).getD (((n + 1) + 1) + 1) 0 = bs.getD n 0
  rw [List.getD_cons_succ, List.getD_cons_succ, List.getD_cons_succ]

/-- The scan finds nothing exactly when no occurrence starts at index
`≥ 2` (occurrences at index 0 or 1 are skipped by the `i > 4`
guard). -/
theorem findTerm_none_iff (bs : List Nat) :
    findTerm bs = none ↔ ∀ s, 2 ≤ s → ¬termStartAt bs s := by
  unfold findTerm
  rw [scanIdx_none_iff]
  constructor
  · rintro h s hs ⟨hlen, h1, h2, h3, h4⟩
    refine h (s + 3) hlen ⟨by omega, ?_, ?_, ?_, ?_⟩
    · rw [show s + 3 + 3 = (s + 3) + 3 from rfl, getD_zzz]; exact h4
    · rw [show s + 3 + 2 = (s + 2) + 3 from rfl, getD_zzz]; exact h3
    · rw [show s + 3 + 1 = (s + 1) + 3 from rfl, getD_zzz]; exact h2
    · rw [getD_zzz]; exact h1
  · rintro h t ht ⟨hit, hp⟩
    obtain ⟨s, rfl⟩ : ∃ u, t = u + 3 := ⟨t - 3, by omega⟩
    obtain ⟨p1, p2, p3, p4⟩ := hp
    rw [show s + 3 + 3 = (s + 3) + 3 from rfl, getD_zzz] at p1
    rw [show s + 3 + 2 = (s + 2) + 3 from rfl, getD_zzz] at p2
    rw [show s + 3 + 1 = (s + 1) + 3 from rfl, getD_zzz] at p3
    rw [getD_zzz] at p4
    exact h s (by omega) ⟨ht, p4, p3, p2, p1⟩

/-- The scan returns `s + 3` for the first occurrence starting at
index `s ≥ 2`. -/
theorem findTerm_eq_some (bs : List Nat) (s : Nat)
    (hs : 2 ≤ s) (h : termStartAt bs s)
    (hmin : ∀ s', 2 ≤ s' → s' < s → ¬termStartAt bs s') :
    findTerm bs = some (s + 3) := by
  unfold findTerm
  rw [scanIdx_some_iff]
  obtain ⟨hlen, h1, h2, h3, h4⟩ := h
  refine ⟨s + 3, hlen, by omega, ⟨by omega, ?_, ?_, ?_, ?_⟩, ?_⟩
  · rw [show s + 3 + 3 = (s + 3) + 3 from rfl, getD_zzz]; exact h4
  · rw [show s + 3 + 2 = (s + 2) + 3 from rfl, getD_zzz]; exact h3
  · rw [show s + 3 + 1 = (s + 1) + 3 from rfl, getD_zzz]; exact h2
  · rw [getD_zzz]; exact h1
  · rintro t' ht' ⟨hit', hp'⟩
    obtain ⟨s', rfl⟩ : ∃ u, t' = u + 3 := ⟨t' - 3, by omega⟩
    obtain ⟨p1, p2, p3, p4⟩ := hp'
    rw [show s' + 3 + 3 = (s' + 3) + 3 from rfl, getD_zzz] at p1
    rw [show s' + 3 + 2 = (s' + 2) + 3 from rfl, getD_zzz] at p2
    rw [show s' + 3 + 1 = (s' + 1) + 3 from rfl, getD_zzz] at p3
    rw [getD_zzz] at p4
    exact hmin s' (by omega) (by omega) ⟨by omega, p4, p3, p2, p1⟩

theorem toNat_ofNat_valid (n : Nat) (h : n < 55296) : (Char.ofNat n).toNat = n := by
  rw [Char.ofNat, dif_pos (Or.inl h)]
  rfl

/-- ASCII uppercasing is idempotent. -/
theorem Char.toUpper_idem (c : Char) : c.toUpper.toUpper = c.toUpper := by
  have key : ∀ d : Char, ¬(d.toNat ≥ 97 ∧ d.toNat ≤ 122) → d.toUpper = d := by
    intro d hd
    unfold Char.toUpper
    rw [if_neg hd]
  by_cases h : c.toNat ≥ 97 ∧ c.toNat ≤ 122
  · have h1 : c.toUpper = Char.ofNat (c.toNat - 32) := by
      unfold Char.toUpper
      rw [if_pos h]
    have ht : (Char.ofNat (c.toNat - 32)).toNat = c.toNat - 32 :=
      toNat_ofNat_valid _ (by omega)
    rw [h1]
    exact key _ (by rw [ht]; omega)
  · rw [key c h]
    exact key c h

theorem toUpperStr_idem (s : RStr) : toUpperStr (toUpperStr s) = toUpperStr s := by
  induction s with
  | nil => rfl
  | cons c cs ih =>
    show Char.toUpper c.toUpper :: toUpperStr (toUpperStr cs) = _
    rw [Char.toUpper_idem, ih]
    rfl

/-- Verb resolution is case-insensitive: uppercasing the token first
does not change the result. -/
theorem from_str_toUpper (t : RStr) :
    HttpVerb.from_str (toUpperStr t) = HttpVerb.from_str t := by
  unfold HttpVerb.from_str
  rw [toUpperStr_idem]

/-- `HttpVerb::from_str` only ever errors with the fixed message. -/
theorem from_str_err (t : RStr) (e : String)
    (h : HttpVerb.from_str t = .error e) : e = "Unknown http verb" := by
  simp only [HttpVerb.from_str] at h
  repeat' split at h
  all_goals simp_all

/-- Appending `"\r\n\r"` to header text does not change the parse: it
only contributes a final `"\r"` chunk, which carries no `": "` and is
ignored by the header loop. -/
theorem parse_append_cr (x : RStr) :
    HttpRequestHeader.parse_from_string (x ++ ['\r', '\n', '\r'])
      = HttpRequestHeader.parse_from_string x := by
  have hsplit : splitCRLF (x ++ ['\r', '\n', '\r']) = splitCRLF x ++ [['\r']] :=
    split2_append_aba '\r' '\n' (by decide) x
  have hne := split2_ne_nil '\r' '\n' x
  have h1 : (splitCRLF x ++ [['\r']]).headD [] = (splitCRLF x).headD [] := by
    cases h : splitCRLF x with
    | nil => exact absurd h hne
    | cons a t => simp
  have h2 : (splitCRLF x ++ [['\r']]).tail = (splitCRLF x).tail ++ [['\r']] := by
    cases h : splitCRLF x with
    | nil => exact absurd h hne
    | cons a t => simp
  have h3 : ∀ acc : Nat × List (RStr × RStr), headerFoldStep acc ['\r'] = acc := by
    intro acc
    rfl
  simp only [HttpRequestHeader.parse_from_string]
  rw [hsplit, h1, h2, List.foldl_append]
  rw [show List.foldl headerFoldStep ((splitCRLF x).tail.foldl headerFoldStep (0, [])) [['\r']]
      = (splitCRLF x).tail.foldl headerFoldStep (0, []) from h3 _]

theorem getElem?_of_getD (bs : List Nat) (n : Nat) (hn : n < bs.length) :
    bs[n]? = some (bs.getD n 0) := by
  rw [List.getElem?_eq_getElem hn, List.getD_eq_getElem?_getD,
    List.getElem?_eq_getElem hn]
  rfl

/-- Taking up to and including the CR LF CR of an occurrence splits as
the preceding bytes plus `[13, 10, 13]`. -/
theorem take_term (bs : List Nat) (s : Nat) (h : termStartAt bs s) :
    bs.take (s + 3) = bs.take s ++ [13, 10, 13] := by
  obtain ⟨hlen, h1, h2, h3, h4⟩ := h
  rw [show s + 3 = ((s + 2) + 1) from rfl, List.take_succ,
    show s + 2 = ((s + 1) + 1) from rfl, List.take_succ, List.take_succ]
  have e1 : bs[s]? = some 13 := by rw [getElem?_of_getD bs s (by omega), h1]
  have e2 : bs[s + 1]? = some 10 := by rw [getElem?_of_getD bs (s + 1) (by omega), h2]
  have e3 : bs[s + 1 + 1]? = some 13 := by
    rw [show s + 1 + 1 = s + 2 from rfl, getElem?_of_getD bs (s + 2) (by omega), h3]
  rw [e1, e2, e3]
  simp

theorem bytesStr_append_crlfcr (x : List Nat) :
    bytesStr (x ++ [13, 10, 13]) = bytesStr x ++ ['\r', '\n', '\r'] := by
  unfold bytesStr
  rw [List.map_append]
  rfl

/-- `parse_from_string` only errors with the verb-resolution
message. -/
theorem from_str_err_of_parse (data : RStr) (e : String)
    (h : HttpRequestHeader.parse_from_string data = .err e) :
    e = "Unknown http verb" := by
  simp only [HttpRequestHeader.parse_from_string] at h
  cases hv : HttpVerb.from_str ((splitSpace ((splitCRLF data).headD [])).headD []) with
  | error e' =>
    rw [hv] at h
    cases h
    exact from_str_err _ _ hv
  | ok verb =>
    rw [hv] at h
    cases h1 : (splitSpace ((splitCRLF data).headD [])).get? 1 with
    | none => rw [h1] at h; cases h
    | some route =>
      cases h2 : (splitSpace ((splitCRLF data).headD [])).get? 2 with
      | none => rw [h1, h2] at h; cases h
      | some version => rw [h1, h2] at h; cases h

/-- `create_from_buffer` returns the `HeaderTooLarge` error exactly
when the scan finds nothing (parse errors use a different message). -/
theorem create_err_iff (buffer : List Nat) :
    HttpRequestHeader.create_from_buffer buffer
        = .err "Request header larger than buffer"
      ↔ findTerm buffer = none := by
  unfold HttpRequestHeader.create_from_buffer
  cases hf : findTerm buffer with
  | none => simp
  | some i =>
    simp only
    cases hp : HttpRequestHeader.parse_from_string (bytesStr (buffer.take i)) with
    | ok h => simp
    | err e =>
      simp only [RResult.err.injEq]
      refine iff_of_false ?_ (by simp)
      intro he
      have h1 := from_str_err_of_parse _ _ hp
      rw [h1] at he
      exact absurd he (by decide)
    | panicked => simp

theorem getD_replicate_zero (m k : Nat) :
    (List.replicate m (0 : Nat)).getD k 0 = 0 := by
  induction m generalizing k with
  | zero => rfl
  | succ m ih =>
    cases k with
    | zero => rfl
    | succ k' => exact ih k'

theorem mkBuffer_length (bytes : List Nat) : (mkBuffer bytes).length = 4096 := by
  unfold mkBuffer
  simp
  omega

/-- C5 counterexample: the buffer beginning with CR LF CR LF (and
otherwise zero) contains a CR LF CR LF occurrence (at index 0), yet
`create_from_buffer` still fails with `HeaderTooLarge`: the scan's
`i > 4` guard never recognizes occurrences starting at index 0 or
1. -/
theorem C5_counterexample :
    termStartAt ([13, 10, 13, 10] ++ List.replicate 4092 0) 0
    ∧ ([13, 10, 13, 10] ++ List.replicate 4092 (0 : Nat)).length = 4096
    ∧ HttpRequestHeader.create_from_buffer ([13, 10, 13, 10] ++ List.replicate 4092 0)
        = .err "Request header larger than buffer" := by
  refine ⟨⟨by rw [List.length_append, List.length_replicate]; decide,
    rfl, rfl, rfl, rfl⟩,
    by rw [List.length_append, List.length_replicate]; decide, ?_⟩
  rw [create_err_iff, findTerm_none_iff]
  intro s hs hterm
  obtain ⟨hlen, h1, h2, h3, h4⟩ := hterm
  have hzero : ∀ u, 4 ≤ u →
      ([13, 10, 13, 10] ++ List.replicate 4092 (0 : Nat)).getD u 0 = 0 := by
    intro u hu
    rw [List.getD_append_right [13, 10, 13, 10] (List.replicate 4092 0) 0 u hu]
    exact getD_replicate_zero _ _
  rcases Nat.lt_or_ge s 4 with hs4 | hs4
  · have : s = 2 ∨ s = 3 := by omega
    rcases this with rfl | rfl
    · rw [hzero (2 + 2) (by omega)] at h3; cases h3
    · cases h1
  · rw [hzero s hs4] at h1; cases h1

/-- C5 (amended): request header parsing fails with `HeaderTooLarge`
exactly when no CR LF CR LF occurrence *starting at index ≥ 2* exists
in the 4096-byte buffer (the `i > 4` guard skips occurrences at
index 0 or 1); when the first such occurrence starts at `s`, the
header is the parse of the bytes preceding the occurrence (the scan
window also hands the parser the occurrence's first three bytes
`"\r\n\r"`, which do not change the parse) and the returned body
offset `s + 4` points just past the occurrence; parsing fails with
`UnknownVerb` exactly as `parse_from_string` does on the decoded
header, whose verb resolution is case-insensitive. -/
theorem C5_amended_header_scan (buffer : List Nat) (hlen : buffer.length = 4096) :
    (HttpRequestHeader.create_from_buffer buffer
        = .err "Request header larger than buffer"
      ↔ ∀ s, 2 ≤ s → ¬termStartAt buffer s)
    ∧ (∀ s, 2 ≤ s → termStartAt buffer s →
        (∀ s', 2 ≤ s' → s' < s → ¬termStartAt buffer s') →
        HttpRequestHeader.create_from_buffer buffer
          = match HttpRequestHeader.parse_from_string (bytesStr (buffer.take s)) with
            | .ok h => .ok (h, s + 4)
            | .err e => .err e
            | .panicked => .panicked)
    ∧ (∀ t : RStr, HttpVerb.from_str (toUpperStr t) = HttpVerb.from_str t) := by
  refine ⟨?_, ?_, from_str_toUpper⟩
  · rw [create_err_iff, findTerm_none_iff]
  · intro s hs hterm hmin
    unfold HttpRequestHeader.create_from_buffer
    rw [findTerm_eq_some buffer s hs hterm hmin]
    show (match HttpRequestHeader.parse_from_string (bytesStr (buffer.take (s + 3))) with
      | RResult.ok h => (RResult.ok (h, (s + 3) + 1) : RResult (HttpRequestHeader × Nat))
      | RResult.err e => RResult.err e
      | RResult.panicked => RResult.panicked) = _
    rw [take_term buffer s hterm, bytesStr_append_crlfcr, parse_append_cr]

theorem C5_witness :
    (strBytes (rstr "FOO / HTTP/1.1\r\n\r\n")).length ≤ 4096
    ∧ HttpRequestHeader.create_from_buffer
        (mkBuffer (strBytes (rstr "FOO / HTTP/1.1\r\n\r\n")))
      = RResult.err "Unknown http verb" := by
  refine ⟨by decide, ?_⟩
  rw [(C5_amended_header_scan (mkBuffer (strBytes (rstr "FOO / HTTP/1.1\r\n\r\n")))
    (mkBuffer_length _)).2.1 14 (by decide)
    ⟨by rw [mkBuffer_length]; decide, by decide, by decide, by decide, by decide⟩
    (by
      intro s' hge hlt ht
      interval_cases s' <;> exact absurd ht.2.1 (by decide))]
  decide

/-! ## Serialization shape lemmas (towards the round trip) -/

theorem char_eq_of_toNat_eq (c : Char) (n : Nat) (h : c.toNat = n) :
    c = Char.ofNat n := by
  rw [← h, Char.ofNat_toNat]

theorem getLastD_mem {α : Type} : ∀ (l : List α) (d : α), l ≠ [] → l.getLastD d ∈ l
  | [], _, h => absurd rfl h
  | [x], d, _ => by simp [List.getLastD]
  | x :: y :: t, d, _ => by
    rw [List.getLastD_cons]
    exact List.mem_cons_of_mem x (getLastD_mem (y :: t) x (by simp))

theorem bytesStr_strBytes (s : RStr) : bytesStr (strBytes s) = s := by
  unfold bytesStr strBytes
  rw [List.map_map]
  exact List.map_id'' (fun c => Char.ofNat_toNat c) s

theorem strBytes_append (s t : RStr) :
    strBytes (s ++ t) = strBytes s ++ strBytes t := by
  unfold strBytes
  exact List.map_append _ s t

theorem joinCRLF_shape_aux (ls : List RStr) : ∀ S : RStr,
    S ++ '\r' :: '\n' :: ((ls.map (fun l => l ++ ['\r', '\n'])).flatten ++ ['\r', '\n'])
      = joinCRLF (S :: ls) ++ ['\r', '\n', '\r', '\n'] := by
  induction ls with
  | nil => intro S; simp [joinCRLF]
  | cons l ls' ih =>
    intro S
    show S ++ '\r' :: '\n' ::
        (((l ++ ['\r', '\n']) :: ls'.map (fun l => l ++ ['\r', '\n'])).flatten
          ++ ['\r', '\n'])
      = (S ++ '\r' :: '\n' :: joinCRLF (l :: ls')) ++ ['\r', '\n', '\r', '\n']
    rw [List.flatten_cons]
    have := ih l
    simp only [List.append_assoc, List.cons_append, List.nil_append] at this ⊢
    rw [this]

theorem get_string_shape (h : HttpRequestHeader) :
    h.get_string = joinCRLF (statusLine h :: headerLines h) ++ ['\r', '\n', '\r', '\n'] := by
  rw [← joinCRLF_shape_aux (headerLines h) (statusLine h)]
  unfold HttpRequestHeader.get_string statusLine headerLines
  rw [List.map_map]
  rw [show rstr "\r\n" = ['\r', '\n'] from rfl, show rstr ": " = [':', ' '] from rfl]
  have hmap : List.map
        ((fun l => l ++ ['\r', '\n']) ∘ fun kv : RStr × RStr => kv.1 ++ ':' :: ' ' :: kv.2)
        h.headers
      = List.map (fun kv : RStr × RStr => kv.1 ++ ([':', ' '] ++ (kv.2 ++ ['\r', '\n'])))
        h.headers := by
    refine List.map_congr_left ?_
    intro kv _
    show (kv.1 ++ ':' :: ' ' :: kv.2) ++ ['\r', '\n'] = _
    simp [List.append_assoc]
  rw [hmap]
  simp [List.append_assoc]

/-! ## The scan on serialized headers -/

/-- The scan walks straight through bytes that are never LF, exiting
with the last walked byte as the most recent window entry. -/
theorem scanIdx_no10 : ∀ (A B : List Nat) (i b3 b2 b1 : Nat),
    (∀ x ∈ A, x ≠ 10) →
    ∃ c3 c2, scanIdx i b3 b2 b1 (A ++ B)
      = scanIdx (i + A.length) c3 c2 (A.getLastD b1) B
  | [], B, i, b3, b2, b1, _ => ⟨b3, b2, rfl⟩
  | a :: A', B, i, b3, b2, b1, h => by
    rw [List.cons_append, scanIdx,
      if_neg (fun hx => (h a (by simp)) hx.2.1)]
    obtain ⟨c3, c2, hw⟩ :=
      scanIdx_no10 A' B (i + 1) b2 b1 a (fun x hx => h x (by simp [hx]))
    refine ⟨c3, c2, ?_⟩
    rw [hw, show (i + 1) + A'.length = i + (a :: A').length by
      rw [List.length_cons]; omega, List.getLastD_cons]

/-- No byte of the encoding of a CR/LF-free piece is LF, and its last
byte is not LF either. -/
theorem strBytes_no10 (p : RStr) (hlf : '\n' ∉ p) : ∀ x ∈ strBytes p, x ≠ 10 := by
  intro x hx
  rcases List.mem_map.mp hx with ⟨c, hc, rfl⟩
  intro h10
  exact hlf ((char_eq_of_toNat_eq c 10 h10) ▸ hc)

/-- Consuming one nonempty LF-free piece followed by its CR LF
separator: the scan walks through without a hit and exits with window
`(last byte of piece, CR, LF)`. -/
theorem scanIdx_piece_sep (p : RStr) (B : List Nat) (i b3 b2 b1 : Nat)
    (hp : p ≠ []) (hlf : '\n' ∉ p) :
    scanIdx i b3 b2 b1 (strBytes p ++ 13 :: 10 :: B)
      = scanIdx (i + (strBytes p).length + 2)
          ((strBytes p).getLastD b1) 13 10 B := by
  obtain ⟨c3, c2, hw⟩ := scanIdx_no10 (strBytes p) (13 :: 10 :: B) i b3 b2 b1
    (strBytes_no10 p hlf)
  rw [hw]
  have hlast : (strBytes p).getLastD b1 ≠ 10 := by
    have hne : strBytes p ≠ [] := by
      intro hc
      exact hp (by cases p with | nil => rfl | cons c cs => cases hc)
    exact strBytes_no10 p hlf _ (getLastD_mem (strBytes p) b1 hne)
  rw [scanIdx, if_neg (by intro hx; exact absurd hx.2.1 (by decide))]
  rw [scanIdx, if_neg (by intro hx; exact hlast hx.2.2.2.1)]

/-- The scan walks through a whole CR LF-joined list of nonempty
CR/LF-free pieces followed by a CR LF, exiting with window
`(?, CR, LF)`. -/
theorem scanIdx_joinCRLF : ∀ (ps : List RStr) (B : List Nat) (i b3 b2 b1 : Nat),
    ps ≠ [] → (∀ p ∈ ps, p ≠ [] ∧ '\r' ∉ p ∧ '\n' ∉ p) →
    ∃ c3, scanIdx i b3 b2 b1 (strBytes (joinCRLF ps) ++ 13 :: 10 :: B)
      = scanIdx (i + (strBytes (joinCRLF ps)).length + 2) c3 13 10 B
  | [], _, _, _, _, _, hne, _ => absurd rfl hne
  | [p], B, i, b3, b2, b1, _, hclean => by
    have hp := hclean p (by simp)
    exact ⟨(strBytes p).getLastD b1,
      scanIdx_piece_sep p B i b3 b2 b1 hp.1 hp.2.2⟩
  | p :: q :: ps', B, i, b3, b2, b1, _, hclean => by
    have hp := hclean p (by simp)
    have hjoin : joinCRLF (p :: q :: ps') = p ++ '\r' :: '\n' :: joinCRLF (q :: ps') := rfl
    rw [hjoin, strBytes_append]
    rw [show strBytes ('\r' :: '\n' :: joinCRLF (q :: ps'))
      = 13 :: 10 :: strBytes (joinCRLF (q :: ps')) from rfl]
    rw [List.append_assoc]
    rw [show (13 :: 10 :: strBytes (joinCRLF (q :: ps'))) ++ 13 :: 10 :: B
      = 13 :: 10 :: (strBytes (joinCRLF (q :: ps')) ++ 13 :: 10 :: B) from rfl]
    rw [scanIdx_piece_sep p _ i b3 b2 b1 hp.1 hp.2.2]
    obtain ⟨c3, hc⟩ := scanIdx_joinCRLF (q :: ps') B
      (i + (strBytes p).length + 2) ((strBytes p).getLastD b1) 13 10
      (by simp) (fun x hx => hclean x (by simp [hx]))
    refine ⟨c3, ?_⟩
    rw [hc]
    have hlen2 : i + (strBytes p).length + 2 + (strBytes (joinCRLF (q :: ps'))).length + 2
        = i + (strBytes p ++ 13 :: 10 :: strBytes (joinCRLF (q :: ps'))).length + 2 := by
      simp only [List.length_append, List.length_cons]
      omega
    rw [hlen2]

/-- On a serialized header — CR LF-joined nonempty CR/LF-free pieces,
the blank-line terminator, then anything — the scan finds exactly the
terminator, reporting the index of its final LF. -/
theorem findTerm_serialized (ps : List RStr) (rest : List Nat)
    (hne : ps ≠ []) (hclean : ∀ p ∈ ps, p ≠ [] ∧ '\r' ∉ p ∧ '\n' ∉ p)
    (hlen : 2 ≤ (strBytes (joinCRLF ps)).length) :
    findTerm (strBytes (joinCRLF ps) ++ 13 :: 10 :: 13 :: 10 :: rest)
      = some ((strBytes (joinCRLF ps)).length + 3) := by
  unfold findTerm
  obtain ⟨c3, hc⟩ := scanIdx_joinCRLF ps (13 :: 10 :: rest) 0 0 0 0 hne hclean
  rw [hc]
  rw [scanIdx, if_neg (by intro hx; exact absurd hx.2.1 (by decide))]
  rw [scanIdx, if_pos ⟨by omega, rfl, rfl, rfl, rfl⟩]
  congr 1
  omega

/-! ## Parsing the serialized header back -/

theorem contains2_false (a b : Char) : ∀ s : RStr, a ∉ s → contains2 a b s = false
  | [], _ => rfl
  | [_], _ => rfl
  | c :: d :: r, h => by
    rw [contains2, if_neg (fun hx : c = a ∧ d = b => h (by
      rw [← hx.1]; exact List.mem_cons_self c (d :: r)))]
    exact contains2_false a b (d :: r) (fun hm => h (List.mem_cons_of_mem c hm))

theorem splitCRLF_joinCRLF : ∀ ps : List RStr, ps ≠ [] → (∀ p ∈ ps, '\r' ∉ p) →
    splitCRLF (joinCRLF ps) = ps
  | [], hne, _ => absurd rfl hne
  | [p], _, hcr => by
    show split2 '\r' '\n' p = [p]
    exact split2_no_sep '\r' '\n' p (contains2_false '\r' '\n' p (hcr p (by simp)))
  | p :: q :: ps', _, hcr => by
    show split2 '\r' '\n' (p ++ '\r' :: '\n' :: joinCRLF (q :: ps')) = p :: q :: ps'
    rw [split2_append_sep '\r' '\n' (by decide) p _
      (contains2_false '\r' '\n' p (hcr p (by simp)))]
    rw [show split2 '\r' '\n' (joinCRLF (q :: ps')) = splitCRLF (joinCRLF (q :: ps')) from rfl]
    rw [splitCRLF_joinCRLF (q :: ps') (by simp) (fun x hx => hcr x (by simp [hx]))]

/-- Verb tokens contain no space, CR or LF. -/
theorem get_str_clean (v : HttpVerb) :
    ∀ c ∈ v.get_str, c ≠ ' ' ∧ c ≠ '\r' ∧ c ≠ '\n' := by
  cases v <;> decide

theorem get_str_ne_nil (v : HttpVerb) : v.get_str ≠ [] := by
  cases v <;> decide

/-- Splitting the rendered status line on spaces recovers the three
tokens. -/
theorem splitSpace_statusLine (h : HttpRequestHeader)
    (hr : ' ' ∉ h.route) (hv : ' ' ∉ h.http_version) :
    splitSpace (statusLine h) = [h.verb.get_str, h.route, h.http_version] := by
  show split1 ' ' (statusLine h) = _
  rw [show statusLine h
    = h.verb.get_str ++ ' ' :: (h.route ++ ' ' :: h.http_version) from by
      unfold statusLine; simp]
  rw [split1_append_sep ' ' h.verb.get_str _
    (fun c hc => (get_str_clean h.verb c hc).1)]
  rw [split1_append_sep ' ' h.route _ (fun c hc he => hr (he ▸ hc))]
  rw [split1_no_sep ' ' h.http_version (fun c hc he => hv (he ▸ hc))]

theorem from_str_get_str (v : HttpVerb) :
    HttpVerb.from_str v.get_str = .ok v := by
  cases v <;> rfl

theorem hmInsert_fresh (m : List (RStr × RStr)) (k v : RStr)
    (h : ∀ p ∈ m, p.1 ≠ k) : hmInsert m k v = m ++ [(k, v)] := by
  unfold hmInsert
  rw [if_neg]
  intro hx
  rcases List.any_eq_true.mp hx with ⟨p, hp, hpk⟩
  exact h p hp (by simpa using hpk)

/-- Folding the rendered header lines of a well-formed, key-distinct
mapping appends exactly the uppercased entries and computes the
content length the `CONTENT-LENGTH` lines dictate. -/
theorem fold_clean : ∀ (es : List (RStr × RStr)) (acc : Nat × List (RStr × RStr)),
    (∀ kv ∈ es, hasColonSpace kv.1 = false ∧ hasColonSpace kv.2 = false) →
    (es.map fun kv => toUpperStr kv.1).Nodup →
    (∀ kv ∈ es, ∀ p ∈ acc.2, p.1 ≠ toUpperStr kv.1) →
    (es.map (fun kv => kv.1 ++ ':' :: ' ' :: kv.2)).foldl headerFoldStep acc
      = (contentLengthOf es acc.1, acc.2 ++ upperHeaders es) := by
  intro es
  induction es with
  | nil =>
    intro acc _ _ _
    simp [contentLengthOf, upperHeaders]
  | cons kv es' ih =>
    intro acc hclean hnodup hfresh
    rw [List.map_cons, List.foldl_cons]
    rw [headerFoldStep_clean acc kv.1 kv.2 (hclean kv (by simp)).1 (hclean kv (by simp)).2]
    rw [hmInsert_fresh acc.2 (toUpperStr kv.1) kv.2 (fun p hp => hfresh kv (by simp) p hp)]
    have hnd2 : (es'.map fun kv => toUpperStr kv.1).Nodup := (List.nodup_cons.mp hnodup).2
    have hhead : toUpperStr kv.1 ∉ es'.map fun kv => toUpperStr kv.1 :=
      (List.nodup_cons.mp hnodup).1
    rw [ih _ (fun x hx => hclean x (by simp [hx])) hnd2 ?_]
    · rw [show contentLengthOf (kv :: es') acc.1
        = contentLengthOf es'
            (if toUpperStr kv.1 = rstr "CONTENT-LENGTH" then
              match parseUsize kv.2 with
              | some i => i
              | none => acc.1
            else acc.1) from rfl]
      rw [show upperHeaders (kv :: es')
        = (toUpperStr kv.1, kv.2) :: upperHeaders es' from rfl]
      simp [List.append_assoc]
    · intro kv' hkv' p hp
      rcases List.mem_append.mp hp with hp1 | hp1
      · exact hfresh kv' (by simp [hkv']) p hp1
      · have : p = (toUpperStr kv.1, kv.2) := by simpa using hp1
        rw [this]
        intro he
        have he' : toUpperStr kv.1 = toUpperStr kv'.1 := he
        refine hhead ?_
        rw [he']
        exact List.mem_map_of_mem (fun kv => toUpperStr kv.1) hkv'

/-- Characters of the rendered status line. -/
theorem statusLine_mem (h : HttpRequestHeader) (c : Char) (hc : c ∈ statusLine h) :
    c ∈ h.verb.get_str ∨ c = ' ' ∨ c ∈ h.route ∨ c ∈ h.http_version := by
  unfold statusLine at hc
  simp only [List.mem_append, List.mem_cons, List.not_mem_nil, or_false] at hc
  tauto

/-- Characters of a rendered header line. -/
theorem headerLine_mem (k v : RStr) (c : Char) (hc : c ∈ k ++ ':' :: ' ' :: v) :
    c ∈ k ∨ c = ':' ∨ c = ' ' ∨ c ∈ v := by
  simp only [List.mem_append, List.mem_cons] at hc
  tauto

/-- For a well-formed header every rendered piece (status line and
header lines) is nonempty and free of CR and LF. -/
theorem pieces_clean (h : HttpRequestHeader)
    (hr : ' ' ∉ h.route ∧ '\r' ∉ h.route ∧ '\n' ∉ h.route)
    (hv : ' ' ∉ h.http_version ∧ '\r' ∉ h.http_version ∧ '\n' ∉ h.http_version)
    (hhdr : ∀ kv ∈ h.headers,
      ('\r' ∉ kv.1 ∧ '\n' ∉ kv.1 ∧ hasColonSpace kv.1 = false)
      ∧ ('\r' ∉ kv.2 ∧ '\n' ∉ kv.2 ∧ hasColonSpace kv.2 = false)) :
    ∀ p ∈ statusLine h :: headerLines h, p ≠ [] ∧ '\r' ∉ p ∧ '\n' ∉ p := by
  intro p hp
  rcases List.mem_cons.mp hp with rfl | hp2
  · refine ⟨?_, ?_, ?_⟩
    · unfold statusLine
      intro hc
      simp [List.append_eq_nil] at hc
    · intro hc
      rcases statusLine_mem h '\r' hc with h1 | h1 | h1 | h1
      · exact (get_str_clean h.verb '\r' h1).2.1 rfl
      · exact absurd h1 (by decide)
      · exact hr.2.1 h1
      · exact hv.2.1 h1
    · intro hc
      rcases statusLine_mem h '\n' hc with h1 | h1 | h1 | h1
      · exact (get_str_clean h.verb '\n' h1).2.2 rfl
      · exact absurd h1 (by decide)
      · exact hr.2.2 h1
      · exact hv.2.2 h1
  · rcases List.mem_map.mp hp2 with ⟨kv, hkv, rfl⟩
    refine ⟨by simp, ?_, ?_⟩
    · intro hc
      rcases headerLine_mem kv.1 kv.2 '\r' hc with h1 | h1 | h1 | h1
      · exact (hhdr kv hkv).1.1 h1
      · exact absurd h1 (by decide)
      · exact absurd h1 (by decide)
      · exact (hhdr kv hkv).2.1 h1
    · intro hc
      rcases headerLine_mem kv.1 kv.2 '\n' hc with h1 | h1 | h1 | h1
      · exact (hhdr kv hkv).1.2.1 h1
      · exact absurd h1 (by decide)
      · exact absurd h1 (by decide)
      · exact (hhdr kv hkv).2.2.1 h1

/-- Parsing the CR LF-joined status line and header lines of a
well-formed header recovers the route, verb and version, the
uppercased mapping, and the content length its `Content-Length` lines
dictate. -/
theorem parse_serialized (h : HttpRequestHeader)
    (hr : ' ' ∉ h.route ∧ '\r' ∉ h.route ∧ '\n' ∉ h.route)
    (hv : ' ' ∉ h.http_version ∧ '\r' ∉ h.http_version ∧ '\n' ∉ h.http_version)
    (hhdr : ∀ kv ∈ h.headers,
      ('\r' ∉ kv.1 ∧ '\n' ∉ kv.1 ∧ hasColonSpace kv.1 = false)
      ∧ ('\r' ∉ kv.2 ∧ '\n' ∉ kv.2 ∧ hasColonSpace kv.2 = false))
    (hnodup : (h.headers.map fun kv => toUpperStr kv.1).Nodup) :
    HttpRequestHeader.parse_from_string (joinCRLF (statusLine h :: headerLines h))
      = .ok ⟨h.route, h.verb, contentLengthOf h.headers 0, upperHeaders h.headers,
          h.http_version⟩ := by
  have hsplit : splitCRLF (joinCRLF (statusLine h :: headerLines h))
      = statusLine h :: headerLines h :=
    splitCRLF_joinCRLF _ (by simp)
      (fun p hp => (pieces_clean h hr hv hhdr p hp).2.1)
  simp only [HttpRequestHeader.parse_from_string]
  rw [hsplit]
  rw [show (statusLine h :: headerLines h).headD [] = statusLine h from rfl,
    show (statusLine h :: headerLines h).tail = headerLines h from rfl]
  rw [splitSpace_statusLine h hr.1 hv.1]
  rw [show ([h.verb.get_str, h.route, h.http_version] : List RStr).headD []
    = h.verb.get_str from rfl]
  rw [from_str_get_str h.verb]
  show RResult.ok _ = _
  rw [show headerLines h = h.headers.map (fun kv => kv.1 ++ ':' :: ' ' :: kv.2) from rfl]
  rw [fold_clean h.headers (0, [])
    (fun kv hkv => ⟨(hhdr kv hkv).1.2.2, (hhdr kv hkv).2.2.2⟩) hnodup
    (fun kv _ p hp => absurd hp (List.not_mem_nil p))]
  rfl

theorem get_str_length (v : HttpVerb) : 3 ≤ v.get_str.length := by
  cases v <;> decide

theorem statusLine_length (h : HttpRequestHeader) : 5 ≤ (statusLine h).length := by
  unfold statusLine
  have := get_str_length h.verb
  simp [List.length_append]
  omega

theorem joinCRLF_cons_length (S : RStr) (ls : List RStr) :
    S.length ≤ (joinCRLF (S :: ls)).length := by
  cases ls with
  | nil => exact Nat.le_refl _
  | cons l ls' =>
    show S.length ≤ (S ++ '\r' :: '\n' :: joinCRLF (l :: ls')).length
    simp [List.length_append]

/-- Unfolding `from_stream` once the header parse of the buffer is
known. -/
theorem from_stream_of_create (bytes : List Nat) (hdr : HttpRequestHeader) (off : Nat)
    (hc : HttpRequestHeader.create_from_buffer (mkBuffer bytes) = .ok (hdr, off)) :
    HttpRequest.from_stream bytes
      = .ok { header := hdr,
              body := if hdr.content_length > 0 then
                        if off + hdr.content_length > 4096 then none
                        else some (((mkBuffer bytes).drop off).take hdr.content_length)
                      else none } := by
  simp only [HttpRequest.from_stream]
  rw [hc]

/-- `create_from_buffer` on a buffer that starts with a serialized
well-formed header followed by the blank-line terminator parses the
header back (keys uppercased, content length recomputed) and returns
the offset just past the terminator. -/
theorem create_serialized (h : HttpRequestHeader) (rest : List Nat)
    (hr : ' ' ∉ h.route ∧ '\r' ∉ h.route ∧ '\n' ∉ h.route)
    (hv : ' ' ∉ h.http_version ∧ '\r' ∉ h.http_version ∧ '\n' ∉ h.http_version)
    (hhdr : ∀ kv ∈ h.headers,
      ('\r' ∉ kv.1 ∧ '\n' ∉ kv.1 ∧ hasColonSpace kv.1 = false)
      ∧ ('\r' ∉ kv.2 ∧ '\n' ∉ kv.2 ∧ hasColonSpace kv.2 = false))
    (hnodup : (h.headers.map fun kv => toUpperStr kv.1).Nodup) :
    HttpRequestHeader.create_from_buffer (serBytes h ++ 13 :: 10 :: 13 :: 10 :: rest)
      = .ok (⟨h.route, h.verb, contentLengthOf h.headers 0, upperHeaders h.headers,
          h.http_version⟩, (serBytes h).length + 3 + 1) := by
  unfold serBytes
  have hclean := pieces_clean h hr hv hhdr
  have hX2 : 2 ≤ (strBytes (joinCRLF (statusLine h :: headerLines h))).length := by
    have h1 := joinCRLF_cons_length (statusLine h) (headerLines h)
    have h2 := statusLine_length h
    have h3 : (strBytes (joinCRLF (statusLine h :: headerLines h))).length
        = (joinCRLF (statusLine h :: headerLines h)).length := by
      simp [strBytes]
    omega
  have hterm := findTerm_serialized (statusLine h :: headerLines h) rest (by simp) hclean hX2
  unfold HttpRequestHeader.create_from_buffer
  rw [hterm]
  show (match HttpRequestHeader.parse_from_string
      (bytesStr ((strBytes (joinCRLF (statusLine h :: headerLines h))
        ++ 13 :: 10 :: 13 :: 10 :: rest).take
        ((strBytes (joinCRLF (statusLine h :: headerLines h))).length + 3))) with
    | RResult.ok hh =>
      (RResult.ok (hh, (strBytes (joinCRLF (statusLine h :: headerLines h))).length + 3 + 1)
        : RResult (HttpRequestHeader × Nat))
    | RResult.err e => RResult.err e
    | RResult.panicked => RResult.panicked) = _
  have htake : (strBytes (joinCRLF (statusLine h :: headerLines h))
        ++ 13 :: 10 :: 13 :: 10 :: rest).take
        ((strBytes (joinCRLF (statusLine h :: headerLines h))).length + 3)
      = strBytes (joinCRLF (statusLine h :: headerLines h)) ++ [13, 10, 13] := by
    rw [List.take_append 3]
    rfl
  rw [htake, bytesStr_append_crlfcr, bytesStr_strBytes, parse_append_cr,
    parse_serialized h hr hv hhdr hnodup]

/-- C1 (counterexample): serializing a request whose header mapping
holds the key `"Host"` and parsing the bytes back yields the key
`"HOST"`: the serialize-then-parse round trip is not the identity on
the request, because `parse_from_string` uppercases header keys. -/
theorem C1_counterexample :
    HttpRequest.from_stream
        (HttpRequest.to_bytes
          ⟨⟨rstr "/", .GET, 0, [(rstr "Host", rstr "x")], rstr "HTTP/1.1"⟩, none⟩)
      = .ok ⟨⟨rstr "/", .GET, 0, [(rstr "HOST", rstr "x")], rstr "HTTP/1.1"⟩, none⟩
    ∧ rstr "HOST" ≠ rstr "Host" := by
  constructor
  · decide
  · decide

/-- C1 (amended): for a well-formed request — route and version free
of space, CR and LF; header names and values free of CR, LF and of
the `": "` separator; header names distinct after uppercasing; the
declared content length consistent with the mapping's
`Content-Length` lines and with the body; the serialized request
fitting the 4096-byte read buffer — serializing with `to_bytes` and
parsing with `from_stream` returns the same request except that every
header key is uppercased. -/
theorem C1_amended_roundtrip (req : HttpRequest)
    (hr : ' ' ∉ req.header.route ∧ '\r' ∉ req.header.route ∧ '\n' ∉ req.header.route)
    (hv : ' ' ∉ req.header.http_version ∧ '\r' ∉ req.header.http_version
      ∧ '\n' ∉ req.header.http_version)
    (hhdr : ∀ kv ∈ req.header.headers,
      ('\r' ∉ kv.1 ∧ '\n' ∉ kv.1 ∧ hasColonSpace kv.1 = false)
      ∧ ('\r' ∉ kv.2 ∧ '\n' ∉ kv.2 ∧ hasColonSpace kv.2 = false))
    (hnodup : (req.header.headers.map fun kv => toUpperStr kv.1).Nodup)
    (hCL : contentLengthOf req.header.headers 0 = req.header.content_length)
    (hnone : req.body = none → req.header.content_length = 0)
    (hsome : ∀ b, req.body = some b →
      b.length = req.header.content_length ∧ 0 < req.header.content_length)
    (hfit : req.to_bytes.length ≤ 4096) :
    HttpRequest.from_stream req.to_bytes
      = .ok ⟨⟨req.header.route, req.header.verb, req.header.content_length,
          upperHeaders req.header.headers, req.header.http_version⟩, req.body⟩ := by
  have hbytes : strBytes req.header.get_string
      = serBytes req.header ++ [13, 10, 13, 10] := by
    rw [get_string_shape req.header, strBytes_append]
    rfl
  rcases hb : req.body with _ | b
  · have hcl0 : req.header.content_length = 0 := hnone hb
    have htb : req.to_bytes = serBytes req.header ++ 13 :: 10 :: 13 :: 10 :: ([] : List Nat) := by
      unfold HttpRequest.to_bytes
      rw [hb]
      show req.header.to_bytes ++ [] = _
      rw [List.append_nil]
      show strBytes req.header.get_string = _
      rw [hbytes]
    have hlen : req.to_bytes.length = (serBytes req.header).length + 4 := by
      rw [htb]
      simp [List.length_append]
    have hmk : mkBuffer req.to_bytes
        = serBytes req.header
          ++ 13 :: 10 :: 13 :: 10 :: List.replicate (4096 - req.to_bytes.length) 0 := by
      unfold mkBuffer
      rw [List.take_of_length_le hfit, hlen, htb]
      simp [List.append_assoc]
    have hcreate : HttpRequestHeader.create_from_buffer (mkBuffer req.to_bytes)
        = .ok (⟨req.header.route, req.header.verb, req.header.content_length,
            upperHeaders req.header.headers, req.header.http_version⟩,
            (serBytes req.header).length + 3 + 1) := by
      rw [hmk, create_serialized req.header _ hr hv hhdr hnodup, hCL]
    rw [from_stream_of_create req.to_bytes _ _ hcreate, hcl0]
    rfl
  · obtain ⟨hbl, hpos⟩ := hsome b hb
    have htb : req.to_bytes = serBytes req.header ++ 13 :: 10 :: 13 :: 10 :: b := by
      unfold HttpRequest.to_bytes
      rw [hb]
      show strBytes req.header.get_string ++ b = _
      rw [hbytes, List.append_assoc]
      rfl
    have hlen : req.to_bytes.length = (serBytes req.header).length + 4 + b.length := by
      rw [htb]
      simp only [List.length_append, List.length_cons]
      omega
    have hmk : mkBuffer req.to_bytes
        = serBytes req.header
          ++ 13 :: 10 :: 13 :: 10 :: (b ++ List.replicate (4096 - req.to_bytes.length) 0) := by
      unfold mkBuffer
      rw [List.take_of_length_le hfit, hlen, htb]
      simp [List.append_assoc]
    have hcreate : HttpRequestHeader.create_from_buffer (mkBuffer req.to_bytes)
        = .ok (⟨req.header.route, req.header.verb, req.header.content_length,
            upperHeaders req.header.headers, req.header.http_version⟩,
            (serBytes req.header).length + 3 + 1) := by
      rw [hmk, create_serialized req.header _ hr hv hhdr hnodup, hCL]
    rw [from_stream_of_create req.to_bytes _ _ hcreate]
    rw [show (⟨req.header.route, req.header.verb, req.header.content_length,
        upperHeaders req.header.headers, req.header.http_version⟩
        : HttpRequestHeader).content_length = req.header.content_length from rfl]
    rw [if_pos (show req.header.content_length > 0 from hpos)]
    rw [if_neg (show ¬((serBytes req.header).length + 3 + 1 + req.header.content_length > 4096)
      from by omega)]
    have hslice : ((mkBuffer req.to_bytes).drop ((serBytes req.header).length + 3 + 1)).take
        req.header.content_length = b := by
      rw [hmk]
      rw [show (serBytes req.header).length + 3 + 1 = (serBytes req.header).length + 4 from rfl]
      rw [List.drop_append 4]
      show (b ++ List.replicate (4096 - req.to_bytes.length) 0).take req.header.content_length = b
      rw [← hbl, List.take_left]
    rw [hslice]

theorem C1_witness :
    HttpRequest.from_stream
        (HttpRequest.to_bytes
          ⟨⟨rstr "/a", .GET, 0, [(rstr "Host", rstr "x")], rstr "HTTP/1.1"⟩, none⟩)
      = .ok ⟨⟨rstr "/a", .GET, 0, upperHeaders [(rstr "Host", rstr "x")], rstr "HTTP/1.1"⟩,
          none⟩ :=
  C1_amended_roundtrip
    ⟨⟨rstr "/a", .GET, 0, [(rstr "Host", rstr "x")], rstr "HTTP/1.1"⟩, none⟩
    (by decide) (by decide) (by decide) (by decide) (by decide)
    (fun _ => rfl) (fun b hb => nomatch hb) (by decide)
